import Mathlib

/-!
# Madgwick orientation filter (package `fusion`)

A shallow embedding of `madgwick.go` together with the functions of the vector
library `github.com/go-gl/mathgl/mgl32` that the filter calls.  The library is a
dependency of the package, not a part of it; its functions are transcribed from
the library sources (`quat.go`, `vectors.go`, `matrix.go`, `util.go`).

The Go code computes on `float32`.  The embedding is written once, over an
arbitrary scalar type `F` that supplies the operations the code uses
(`Scalar F`), and is then read in two ways:

* `exactScalar sqrt` interprets the scalars in a linearly ordered field with a
  square root function (instantiated at `ℝ` with `Real.sqrt`): every operation
  is Exact.  The algebraic statements about the filter are proved in this
  reading.
* `Float32` is a model of IEEE-754 binary32 with round-to-nearest-even, signed
  zeros, infinities and NaN, every operation rounded on its own (no fused
  multiply-add), used for the statements about concrete `float32` values.
-/

/-- Scalar operations of the Go type `float32` that the filter and the vector
library use. -/
class Scalar (F : Type) extends Add F, Sub F, Mul F, Div F, Neg F where
  /-- An untyped Go constant converted to `float32`. -/
  lit : ℚ → F
  /-- The conversion `float32(i)` of an `int64`. -/
  ofInt64 : Int → F
  /-- The expression `float32(math.Sqrt(float64(x)))`. -/
  sqrt : F → F
  /-- The comparison `a == b`. -/
  eq : F → F → Bool
  /-- The comparison `a < b`. -/
  lt : F → F → Bool
  /-- The comparison `a == InfPos`, with `InfPos = float32(math.Inf(1))`. -/
  eqInfPos : F → Bool

namespace mgl32

open Scalar

variable {F : Type} [Scalar F]

/-- Go `mgl32.Vec3`, a `[3]float32` read through `X()`, `Y()`, `Z()`. -/
structure Vec3 (F : Type) where
  X : F
  Y : F
  Z : F

/-- Go `mgl32.Vec4`, a `[4]float32` read through `X()`, `Y()`, `Z()`, `W()`. -/
structure Vec4 (F : Type) where
  X : F
  Y : F
  Z : F
  W : F

/-- Go `mgl32.Quat`: the scalar part `W` and the vector part `V`. -/
structure Quat (F : Type) where
  W : F
  V : Vec3 F

/-- Go `mgl32.Mat4x3`, a `[12]float32` in column-major order. -/
structure Mat4x3 (F : Type) where
  m0 : F
  m1 : F
  m2 : F
  m3 : F
  m4 : F
  m5 : F
  m6 : F
  m7 : F
  m8 : F
  m9 : F
  m10 : F
  m11 : F

/-- Go `mgl32.Epsilon`, declared as `var Epsilon float32 = 1e-10`. -/
def Epsilon : F := lit (1e-10)

/-- Go `mgl32.MinNormal = float32(1.1754943508222875e-38)`. -/
def MinNormal : F := lit (1.1754943508222875e-38)

/-- Go `mgl32.MaxValue = float32(math.MaxFloat32)`. -/
def MaxValue : F := lit (2 ^ 128 - 2 ^ 104)

/-- Go `mgl32.Abs`. -/
def Abs (a : F) : F :=
  if lt a (lit 0) then -a
  else if eq a (lit 0) then lit 0
  else a

/-- Go `mgl32.FloatEqualThreshold`. -/
def FloatEqualThreshold (a b epsilon : F) : Bool :=
  if eq a b then true
  else
    let diff := Abs (a - b)
    if eq (a * b) (lit 0) || lt diff MinNormal then lt diff (epsilon * epsilon)
    else lt (diff / (Abs a + Abs b)) epsilon

/-- Go `mgl32.FloatEqual`. -/
def FloatEqual (a b : F) : Bool := FloatEqualThreshold a b Epsilon

namespace Vec3

/-- Go `Vec3.Add`. -/
def Add (v1 v2 : Vec3 F) : Vec3 F := ⟨v1.X + v2.X, v1.Y + v2.Y, v1.Z + v2.Z⟩

/-- Go `Vec3.Sub`. -/
def Sub (v1 v2 : Vec3 F) : Vec3 F := ⟨v1.X - v2.X, v1.Y - v2.Y, v1.Z - v2.Z⟩

/-- Go `Vec3.Mul`, the product with a scalar. -/
def Mul (v1 : Vec3 F) (c : F) : Vec3 F := ⟨v1.X * c, v1.Y * c, v1.Z * c⟩

/-- Go `Vec3.Dot`. -/
def Dot (v1 v2 : Vec3 F) : F := v1.X * v2.X + v1.Y * v2.Y + v1.Z * v2.Z

/-- Go `Vec3.Cross`. -/
def Cross (v1 v2 : Vec3 F) : Vec3 F :=
  ⟨v1.Y * v2.Z - v1.Z * v2.Y, v1.Z * v2.X - v1.X * v2.Z, v1.X * v2.Y - v1.Y * v2.X⟩

/-- Go `Vec3.Len`. -/
def Len (v1 : Vec3 F) : F := sqrt (v1.X * v1.X + v1.Y * v1.Y + v1.Z * v1.Z)

/-- Go `Vec3.Normalize`: multiplies by `1.0 / v1.Len()`, with no test for a zero
length. -/
def Normalize (v1 : Vec3 F) : Vec3 F :=
  let l := lit 1 / v1.Len
  ⟨v1.X * l, v1.Y * l, v1.Z * l⟩

end Vec3

/-- Go `mgl32.QuatIdent`. -/
def QuatIdent : Quat F := ⟨lit 1, ⟨lit 0, lit 0, lit 0⟩⟩

namespace Quat

/-- Go `Quat.X`. -/
def X (q : Quat F) : F := q.V.X

/-- Go `Quat.Y`. -/
def Y (q : Quat F) : F := q.V.Y

/-- Go `Quat.Z`. -/
def Z (q : Quat F) : F := q.V.Z

/-- Go `Quat.Add`. -/
def Add (q1 q2 : Quat F) : Quat F := ⟨q1.W + q2.W, q1.V.Add q2.V⟩

/-- Go `Quat.Sub`. -/
def Sub (q1 q2 : Quat F) : Quat F := ⟨q1.W - q2.W, q1.V.Sub q2.V⟩

/-- Go `Quat.Mul`, the quaternion product. -/
def Mul (q1 q2 : Quat F) : Quat F :=
  ⟨q1.W * q2.W - q1.V.Dot q2.V,
   ((q1.V.Cross q2.V).Add (q2.V.Mul q1.W)).Add (q1.V.Mul q2.W)⟩

/-- Go `Quat.Scale`. -/
def Scale (q1 : Quat F) (c : F) : Quat F := ⟨q1.W * c, ⟨q1.V.X * c, q1.V.Y * c, q1.V.Z * c⟩⟩

/-- Go `Quat.Len`. -/
def Len (q1 : Quat F) : F :=
  sqrt (q1.W * q1.W + q1.V.X * q1.V.X + q1.V.Y * q1.V.Y + q1.V.Z * q1.V.Z)

/-- Go `Quat.Normalize`: returns the argument as it is when `FloatEqual(1, length)`,
the identity when the length is zero, and otherwise divides by the length (by
`MaxValue` for an infinite length). -/
def Normalize (q1 : Quat F) : Quat F :=
  let length := q1.Len
  if FloatEqual (lit 1) length then q1
  else if eq length (lit 0) then QuatIdent
  else
    let length := if eqInfPos length then MaxValue else length
    ⟨q1.W * lit 1 / length, q1.V.Mul (lit 1 / length)⟩

end Quat

/-- Go `mgl32.Mat4x3FromCols`. -/
def Mat4x3FromCols (col0 col1 col2 : Vec4 F) : Mat4x3 F :=
  ⟨col0.X, col0.Y, col0.Z, col0.W, col1.X, col1.Y, col1.Z, col1.W,
   col2.X, col2.Y, col2.Z, col2.W⟩

/-- Go `Mat4x3.Mul3x1`. -/
def Mat4x3.Mul3x1 (m1 : Mat4x3 F) (m2 : Vec3 F) : Vec4 F :=
  ⟨m1.m0 * m2.X + m1.m4 * m2.Y + m1.m8 * m2.Z,
   m1.m1 * m2.X + m1.m5 * m2.Y + m1.m9 * m2.Z,
   m1.m2 * m2.X + m1.m6 * m2.Y + m1.m10 * m2.Z,
   m1.m3 * m2.X + m1.m7 * m2.Y + m1.m11 * m2.Z⟩

end mgl32

namespace fusion

open Scalar mgl32

variable {F : Type} [Scalar F]

/-- Go `Madgwick`: the embedded orientation `mgl32.Quat` and the gain `beta`. -/
structure Madgwick (F : Type) where
  Quat : mgl32.Quat F
  beta : F

/-- Go `vec4ToQuat`. -/
def vec4ToQuat (v : Vec4 F) : mgl32.Quat F := ⟨v.W, ⟨v.X, v.Y, v.Z⟩⟩

/-- Go `NewMadgwick`. -/
def NewMadgwick (gyroMeasurementError : F) : Madgwick F :=
  let beta := sqrt (lit (3 / 4)) * gyroMeasurementError
  { Quat := QuatIdent, beta := beta }

/-- The objective function `f` of `Update`. -/
def Madgwick.objective (m : Madgwick F) (accel : Vec3 F) : Vec3 F :=
  ⟨lit 2 * (m.Quat.X * m.Quat.Z - m.Quat.W * m.Quat.Y) - accel.X,
   lit 2 * (m.Quat.W * m.Quat.X + m.Quat.Y * m.Quat.Z) - accel.Y,
   lit 2 * (lit 0.5 - m.Quat.X * m.Quat.X - m.Quat.Y * m.Quat.Y) - accel.Z⟩

/-- The Jacobian `j` of `Update`. -/
def Madgwick.jacobian (m : Madgwick F) : Mat4x3 F :=
  Mat4x3FromCols
    ⟨lit 2 * m.Quat.Z, lit (-2) * m.Quat.W, lit 2 * m.Quat.X, lit (-2) * m.Quat.Y⟩
    ⟨lit 2 * m.Quat.W, lit 2 * m.Quat.Z, lit 2 * m.Quat.Y, lit 2 * m.Quat.X⟩
    ⟨lit (-4) * m.Quat.X, lit (-4) * m.Quat.Y, lit 0, lit 0⟩

/-- The quaternion `gradient` of `Update`, for the raw accelerometer vector. -/
def Madgwick.gradient (m : Madgwick F) (accel : Vec3 F) : mgl32.Quat F :=
  let accel := accel.Normalize
  let f := m.objective accel
  let j := m.jacobian
  vec4ToQuat (j.Mul3x1 f)

/-- The quaternion `rateOfChange` of `Update`. -/
def Madgwick.rateOfChange (m : Madgwick F) (gyro accel : Vec3 F) : mgl32.Quat F :=
  let gyroQuat : mgl32.Quat F := ⟨lit 0, gyro⟩
  let newOrientationWithError := (m.Quat.Scale (lit 0.5)).Mul gyroQuat
  let gradient := m.gradient accel
  let directionOfError := gradient.Normalize
  newOrientationWithError.Sub (directionOfError.Scale m.beta)

/-- The value `timeDeltaSec` of `Update`; `timeDelta` is the `time.Duration`, a
count of nanoseconds, and `time.Nanosecond` is `1`. -/
def timeDeltaSec (timeDelta : Int) : F :=
  ofInt64 (timeDelta / 1) / lit 1000000000

/-- The sum `m.Quat.Add(rateOfChange.Scale(timeDeltaSec))` that `Update`
normalizes. -/
def Madgwick.integrated (m : Madgwick F) (gyro accel : Vec3 F) (timeDelta : Int) :
    mgl32.Quat F :=
  m.Quat.Add ((m.rateOfChange gyro accel).Scale (timeDeltaSec timeDelta))

/-- Go `Madgwick.Update`: the filter after the call. -/
def Madgwick.Update (m : Madgwick F) (gyro accel : Vec3 F) (timeDelta : Int) :
    Madgwick F :=
  { m with Quat := (m.integrated gyro accel timeDelta).Normalize }

/-- The filter after a sequence of calls of `Update`, one for each sample
`(gyro, accel, timeDelta)` of the list, in order. -/
def Madgwick.Updates (m : Madgwick F) : List (Vec3 F × Vec3 F × Int) → Madgwick F
  | [] => m
  | s :: rest => Madgwick.Updates (m.Update s.1 s.2.1 s.2.2) rest

end fusion

/-! ## Exact reading of the scalars -/

/-- The scalar operations read in a linearly ordered field: every operation is
exact, constants and integers are their own values, `sqrt` is the given square
root function, and no value equals `InfPos`. -/
def exactScalar {F : Type} [LinearOrderedField F] (sqrt : F → F) : Scalar F where
  toAdd := inferInstance
  toSub := inferInstance
  toMul := inferInstance
  toDiv := inferInstance
  toNeg := inferInstance
  lit q := (q : F)
  ofInt64 i := (i : F)
  sqrt := sqrt
  eq a b := decide (a = b)
  lt a b := decide (a < b)
  eqInfPos _ := false

namespace Exact

open mgl32 fusion

variable {F : Type} [LinearOrderedField F]

/-- Go `mgl32.FloatEqual` over exact scalars. -/
def FloatEqual (sqrt : F → F) (a b : F) : Bool :=
  @mgl32.FloatEqual F (exactScalar sqrt) a b

/-- Go `Vec3.Normalize` over exact scalars. -/
def VecNormalize (sqrt : F → F) (v : Vec3 F) : Vec3 F :=
  @Vec3.Normalize F (exactScalar sqrt) v

/-- Go `Quat.Len` over exact scalars. -/
def Len (sqrt : F → F) (q : Quat F) : F := @Quat.Len F (exactScalar sqrt) q

/-- Go `Quat.Normalize` over exact scalars. -/
def Normalize (sqrt : F → F) (q : Quat F) : Quat F :=
  @Quat.Normalize F (exactScalar sqrt) q

/-- Go `NewMadgwick` over exact scalars. -/
def NewMadgwick (sqrt : F → F) (gyroMeasurementError : F) : Madgwick F :=
  @fusion.NewMadgwick F (exactScalar sqrt) gyroMeasurementError

/-- The objective function `f` of `Update` over exact scalars, as a function of
the orientation components `w, x, y, z`, for the normalized accel vector `a`. -/
def objectiveAt (sqrt : F → F) (a : Vec3 F) (w x y z : F) : Vec3 F :=
  @Madgwick.objective F (exactScalar sqrt) ⟨⟨w, ⟨x, y, z⟩⟩, 0⟩ a

/-- The quaternion `gradient` of `Update` over exact scalars. -/
def gradient (sqrt : F → F) (m : Madgwick F) (accel : Vec3 F) : Quat F :=
  @Madgwick.gradient F (exactScalar sqrt) m accel

/-- The sum that `Update` normalizes, over exact scalars. -/
def integrated (sqrt : F → F) (m : Madgwick F) (gyro accel : Vec3 F) (timeDelta : Int) :
    Quat F :=
  @Madgwick.integrated F (exactScalar sqrt) m gyro accel timeDelta

/-- Go `Madgwick.Update` over exact scalars. -/
def Update (sqrt : F → F) (m : Madgwick F) (gyro accel : Vec3 F) (timeDelta : Int) :
    Madgwick F :=
  @Madgwick.Update F (exactScalar sqrt) m gyro accel timeDelta

end Exact

/-! ## The formulas of the specification -/

namespace spec

open mgl32

variable {F : Type} [Field F]

/-- Hamilton product of two quaternions, written out by components. -/
def hamilton (p q : Quat F) : Quat F :=
  ⟨p.W * q.W - p.V.X * q.V.X - p.V.Y * q.V.Y - p.V.Z * q.V.Z,
   ⟨p.W * q.V.X + p.V.X * q.W + p.V.Y * q.V.Z - p.V.Z * q.V.Y,
    p.W * q.V.Y - p.V.X * q.V.Z + p.V.Y * q.W + p.V.Z * q.V.X,
    p.W * q.V.Z + p.V.X * q.V.Y - p.V.Y * q.V.X + p.V.Z * q.W⟩⟩

/-- Componentwise sum of two quaternions. -/
def add (p q : Quat F) : Quat F :=
  ⟨p.W + q.W, ⟨p.V.X + q.V.X, p.V.Y + q.V.Y, p.V.Z + q.V.Z⟩⟩

/-- Componentwise difference of two quaternions. -/
def sub (p q : Quat F) : Quat F :=
  ⟨p.W - q.W, ⟨p.V.X - q.V.X, p.V.Y - q.V.Y, p.V.Z - q.V.Z⟩⟩

/-- Product of a scalar and a quaternion. -/
def smul (c : F) (q : Quat F) : Quat F :=
  ⟨c * q.W, ⟨c * q.V.X, c * q.V.Y, c * q.V.Z⟩⟩

/-- Negation of a quaternion. -/
def neg (q : Quat F) : Quat F := ⟨-q.W, ⟨-q.V.X, -q.V.Y, -q.V.Z⟩⟩

/-- Squared norm `w² + x² + y² + z²` of a quaternion. -/
def normSq (q : Quat F) : F := q.W ^ 2 + q.V.X ^ 2 + q.V.Y ^ 2 + q.V.Z ^ 2

/-- Half the squared length `0.5 |v|²` of a vector. -/
def halfSq (v : Vec3 F) : F := 1 / 2 * (v.X ^ 2 + v.Y ^ 2 + v.Z ^ 2)

/-- The objective function `f` of the specification at the orientation `q`, for the
unit accelerometer vector `a`. -/
def objective (q : Quat F) (a : Vec3 F) : Vec3 F :=
  ⟨2 * (q.V.X * q.V.Z - q.W * q.V.Y) - a.X,
   2 * (q.W * q.V.X + q.V.Y * q.V.Z) - a.Y,
   2 * (1 / 2 - q.V.X ^ 2 - q.V.Y ^ 2) - a.Z⟩

/-- The product `Jᵀ f` as a quaternion: `J` has one row per component of `f` and
one column per quaternion component, its entries being the partial derivatives
of `f`; the rows are `(2z, -2w, 2x, -2y)`, `(2w, 2z, 2y, 2x)`, `(-4x, -4y, 0, 0)`
in the column order `x, y, z, w`. -/
def gradient (q : Quat F) (f : Vec3 F) : Quat F :=
  ⟨(-2 * q.V.Y) * f.X + (2 * q.V.X) * f.Y + 0 * f.Z,
   ⟨(2 * q.V.Z) * f.X + (2 * q.W) * f.Y + (-4 * q.V.X) * f.Z,
    (-2 * q.W) * f.X + (2 * q.V.Z) * f.Y + (-4 * q.V.Y) * f.Z,
    (2 * q.V.X) * f.X + (2 * q.V.Y) * f.Y + 0 * f.Z⟩⟩

/-- Conjugate of a quaternion. -/
def conj (q : Quat F) : Quat F := ⟨q.W, ⟨-q.V.X, -q.V.Y, -q.V.Z⟩⟩

/-- Squared length `x² + y² + z²` of a vector. -/
def lenSq (v : Vec3 F) : F := v.X ^ 2 + v.Y ^ 2 + v.Z ^ 2

/-- The vector `p(q) = (2(xz - wy), 2(wx + yz), 2(0.5 - x² - y²))`, the gravity
direction that the orientation `q` predicts. -/
def gravity (q : Quat F) : Vec3 F :=
  ⟨2 * (q.V.X * q.V.Z - q.W * q.V.Y), 2 * (q.W * q.V.X + q.V.Y * q.V.Z),
   2 * (1 / 2 - q.V.X ^ 2 - q.V.Y ^ 2)⟩

end spec

/-! ## The `float32` reading of the scalars -/

/-- A value of the Go type `float32` (IEEE-754 binary32): the finite value
`(-1)^neg * m * 2^(e - 149)`, an infinity, or a NaN.  The operations below return
finite values with `m < 2^24`, `e ≤ 253` and `2^23 ≤ m` unless `e = 0`, and zero
as `m = 0`, `e = 0`. -/
inductive Float32 where
  | finite (neg : Bool) (m : Nat) (e : Nat)
  | inf (neg : Bool)
  | nan

deriving instance DecidableEq for Float32

namespace Float32

/-- One step of the count of binary digits: when `x.1` has more than `k` digits,
drop `k` of them and add `k` to the count `x.2`. -/
def bitStep (k : Nat) (x : Nat × Nat) : Nat × Nat :=
  if x.1 < 2 ^ k then x else (x.1 / 2 ^ k, x.2 + k)

/-- Number of binary digits of `n`, for `n < 2 ^ 1024`. -/
def bitLengthSmall (n : Nat) : Nat :=
  let x := bitStep 1 (bitStep 2 (bitStep 4 (bitStep 8 (bitStep 16 (bitStep 32 (bitStep 64
    (bitStep 128 (bitStep 256 (bitStep 512 (n, 0))))))))))
  x.1 + x.2

/-- Number of binary digits of `n`, with `fuel` steps of `1024` digits. -/
def bitLengthAux : Nat → Nat → Nat
  | 0, _ => 0
  | fuel + 1, n =>
    if n < 2 ^ 1024 then bitLengthSmall n else bitLengthAux fuel (n / 2 ^ 1024) + 1024

/-- Number of binary digits of `n`. -/
def bitLength (n : Nat) : Nat := bitLengthAux n n

/-- Integer square root by bisection on the binary digits below position `i`. -/
def isqrtAux (n : Nat) : Nat → Nat → Nat
  | 0, r => r
  | i + 1, r => isqrtAux n i (if (r + 2 ^ i) * (r + 2 ^ i) ≤ n then r + 2 ^ i else r)

/-- The largest `r` with `r * r ≤ n`. -/
def isqrt (n : Nat) : Nat := isqrtAux n (bitLength n / 2 + 1) 0

/-- Round `M * 2^(E - bias)` to nearest, ties to even, in the binary format with
`p` digits whose least exponent is `-emin`; the result `(m, e)` stands for
`m * 2^(e - emin)`, with `m < 2^p`. -/
def roundNE (p emin M E bias : Nat) : Nat × Nat :=
  let e := E + bitLength M + emin - (p + bias)
  if e + bias ≤ E + emin then (M * 2 ^ (E + emin - (e + bias)), e)
  else
    let d := e + bias - (E + emin)
    let q := M / 2 ^ d
    let r := M % 2 ^ d
    let half := 2 ^ (d - 1)
    let m := if half < r ∨ (r = half ∧ q % 2 = 1) then q + 1 else q
    if m = 2 ^ p then (2 ^ (p - 1), e + 1) else (m, e)

/-- The `float32` nearest to `(-1)^neg * M * 2^(E - bias)`: rounding to 24 digits
with least exponent `-149`, overflow to infinity above the largest finite
value. -/
def ofRounded (neg : Bool) (M E bias : Nat) : Float32 :=
  let r := roundNE 24 149 M E bias
  if r.1 = 0 then finite neg 0 0
  else if 253 < r.2 then inf neg
  else finite neg r.1 r.2

/-- Append a sticky digit to a quotient or root `q` whose remainder is non-zero
exactly when `inexact`: the result rounds as the exact value does. -/
def withSticky (q : Nat) (inexact : Bool) : Nat := 2 * q + (if inexact then 1 else 0)

/-- Addition `x + y`. -/
def add : Float32 → Float32 → Float32
  | nan, _ => nan
  | _, nan => nan
  | inf s, inf t => if s = t then inf s else nan
  | inf s, finite _ _ _ => inf s
  | finite _ _ _, inf t => inf t
  | finite s1 m1 e1, finite s2 m2 e2 =>
    let e := min e1 e2
    let a := m1 * 2 ^ (e1 - e)
    let b := m2 * 2 ^ (e2 - e)
    if s1 = s2 then ofRounded s1 (a + b) e 149
    else if a = b then finite false 0 0
    else if b < a then ofRounded s1 (a - b) e 149
    else ofRounded s2 (b - a) e 149

/-- Negation `-x`. -/
def neg : Float32 → Float32
  | nan => nan
  | inf s => inf (!s)
  | finite s m e => finite (!s) m e

/-- Subtraction `x - y`. -/
def sub (x y : Float32) : Float32 := add x (neg y)

/-- Multiplication `x * y`. -/
def mul : Float32 → Float32 → Float32
  | nan, _ => nan
  | _, nan => nan
  | inf s, inf t => inf (xor s t)
  | inf s, finite t m _ => if m = 0 then nan else inf (xor s t)
  | finite s m _, inf t => if m = 0 then nan else inf (xor s t)
  | finite s1 m1 e1, finite s2 m2 e2 => ofRounded (xor s1 s2) (m1 * m2) (e1 + e2) 298

/-- Division `x / y`. -/
def div : Float32 → Float32 → Float32
  | nan, _ => nan
  | _, nan => nan
  | inf _, inf _ => nan
  | inf s, finite t _ _ => inf (xor s t)
  | finite s _ _, inf t => finite (xor s t) 0 0
  | finite s1 m1 e1, finite s2 m2 e2 =>
    if m2 = 0 then (if m1 = 0 then nan else inf (xor s1 s2))
    else
      let n := m1 * 2 ^ 64
      ofRounded (xor s1 s2) (withSticky (n / m2) (decide (n % m2 ≠ 0))) e1 (e2 + 65)

/-- The expression `float32(math.Sqrt(float64(x)))`: the square root rounded to
binary64 (53 digits, least exponent `-1074`) and then to `float32`. -/
def sqrt : Float32 → Float32
  | nan => nan
  | inf s => if s then nan else inf false
  | finite s m e =>
    if m = 0 then finite s 0 0
    else if s then nan
    else
      let sh := if e % 2 = 0 then 121 else 120
      let n := m * 2 ^ sh
      let r := isqrt n
      let r64 := roundNE 53 1074 (withSticky r (decide (r * r ≠ n))) ((e + 149 + sh) / 2)
        (149 + sh + 1)
      ofRounded false r64.1 r64.2 1074

/-- An exact rational constant converted to `float32`. -/
def lit (q : ℚ) : Float32 :=
  let k := bitLength q.den + 30
  let a := q.num.natAbs * 2 ^ k
  ofRounded (decide (q.num < 0)) (withSticky (a / q.den) (decide (a % q.den ≠ 0))) 0 (k + 1)

/-- The conversion `float32(i)` of an integer. -/
def ofInt64 (i : Int) : Float32 := ofRounded (decide (i < 0)) i.natAbs 0 0

/-- The integer `(-1)^neg * n`. -/
def signed (neg : Bool) (n : Nat) : Int := if neg then -(n : Int) else (n : Int)

/-- The comparison `x == y`. -/
def eq : Float32 → Float32 → Bool
  | nan, _ => false
  | _, nan => false
  | inf s, inf t => s == t
  | inf _, finite _ _ _ => false
  | finite _ _ _, inf _ => false
  | finite s1 m1 e1, finite s2 m2 e2 =>
    let e := min e1 e2
    let a := m1 * 2 ^ (e1 - e)
    let b := m2 * 2 ^ (e2 - e)
    a == b && (s1 == s2 || a == 0)

/-- The comparison `x < y`. -/
def lt : Float32 → Float32 → Bool
  | nan, _ => false
  | _, nan => false
  | inf s, inf t => s && !t
  | inf s, finite _ _ _ => s
  | finite _ _ _, inf t => !t
  | finite s1 m1 e1, finite s2 m2 e2 =>
    let e := min e1 e2
    let a := m1 * 2 ^ (e1 - e)
    let b := m2 * 2 ^ (e2 - e)
    match s1, s2 with
    | false, false => decide (a < b)
    | true, true => decide (b < a)
    | true, false => !(a == 0 && b == 0)
    | false, true => false

/-- The comparison `x == InfPos`. -/
def eqInfPos : Float32 → Bool
  | inf s => !s
  | _ => false

/-- The rational value `(-1)^neg * m * 2^(e - 149)` of a finite `float32`. -/
def value (neg : Bool) (m e : Nat) : ℚ :=
  Rat.divInt (signed neg (m * 2 ^ e)) (2 ^ 149)

/-- The value is finite and within `tol` of the rational `g`. -/
def near (tol g : ℚ) : Float32 → Prop
  | finite s m e => |value s m e - g| ≤ tol
  | inf _ => False
  | nan => False

instance decidableNear (tol g : ℚ) : (x : Float32) → Decidable (near tol g x)
  | finite s m e => (inferInstance : Decidable (|value s m e - g| ≤ tol))
  | inf _ => isFalse (fun h => h)
  | nan => isFalse (fun h => h)

end Float32

instance : Scalar Float32 where
  add := Float32.add
  sub := Float32.sub
  mul := Float32.mul
  div := Float32.div
  neg := Float32.neg
  lit := Float32.lit
  ofInt64 := Float32.ofInt64
  sqrt := Float32.sqrt
  eq := Float32.eq
  lt := Float32.lt
  eqInfPos := Float32.eqInfPos

/-! ## The test fixture of `madgwick_test.go` -/

namespace fusion

open Scalar mgl32

/-- One element of `madgwickTestFixture`: a sample and the expected orientation. -/
structure fixtureRow where
  gyro : Vec3 Float32
  accel : Vec3 Float32
  timeDelta : Int
  W : ℚ
  X : ℚ
  Y : ℚ
  Z : ℚ

/-- A composite literal of `madgwickTestFixture`: the constants of the two
vectors converted to `float32`, the duration, and the constants of the expected
orientation, which are converted to `float32` where they are used. -/
def row (gx gy gz ax ay az : ℚ) (timeDelta : Int) (w x y z : ℚ) : fixtureRow :=
  ⟨⟨lit gx, lit gy, lit gz⟩, ⟨lit ax, lit ay, lit az⟩, timeDelta, w, x, y, z⟩

/-- Go `madgwickTestFixture`. -/
def madgwickTestFixture : List fixtureRow :=
[
  row (-0.098402) 0.113307 0.089605  0.291015 0.466064 0.919677  101998848  0.999987 0.001520 0.001696 0.004570,
  row (-0.072431) 0.107442 0.188146  0.308105 0.470703 0.866210  118718464  0.999860 0.004705 0.003105 0.015774,
  row (-0.139940) 0.102521 0.138474  0.220703 0.512939 0.835449  118751232  0.999684 0.004576 0.005488 0.024090,
  row (-0.040736) (-0.009180) (-0.071227)  0.313720 0.447753 0.873046  118751232  0.999756 0.009505 (-0.000236) 0.019936,
  row (-0.024365) 0.027157 0.014364  0.338867 0.447998 0.879882  119111680  0.999659 0.015212 (-0.004066) 0.020854,
  row (-0.018361) 0.364844 0.292273  0.340576 0.499755 0.885253  118882304  0.998959 0.021039 0.012303 0.038573,
  row (-0.070825) (-0.049253) (-0.423173)  0.435791 0.528076 0.802734  118784000  0.999624 0.023462 0.003927 0.013658,
  row (-0.272708) (-0.211586) (-0.557127)  0.295898 0.428466 0.964843  128745472  0.999547 0.013655 (-0.014997) (-0.022245),
  row 0.044593 (-0.217573) 0.241938  0.344970 0.361328 0.902832  119144448  0.999126 0.022186 (-0.034520) (-0.007983),
  row (-0.632891) (-0.202650) (-0.245009)  0.424316 0.614013 0.960693  118947840  0.998392 (-0.007435) (-0.050704) (-0.024233),
  row (-0.075224) 0.564056 0.519043  0.365234 0.343017 1.502929  119209984  0.999740 (-0.005006) (-0.021504) 0.005743,
  row (-0.186942) 2.061286 0.473106  0.195800 0.253906 0.953369  118947840  0.994810 (-0.009583) 0.095914 0.032588,
  row (-0.344999) 1.959673 0.744086  0.240234 0.330078 0.849365  118849536  0.975682 (-0.023427) 0.203701 0.077470,
  row (-0.244608) 1.699881 (-0.664185)  (-0.015136) 0.266113 0.801513  118882304  0.954019 (-0.047228) 0.293223 0.040459,
  row 0.538748 0.166173 0.292133  (-0.133056) (-0.062744) 0.809082  128712704  0.953485 (-0.008674) 0.297549 0.047493,
  row 0.316638 1.185358 1.323710  (-0.381835) (-0.161376) 0.218017  118947840  0.921842 0.023554 0.369763 0.113696,
  row (-0.436751) 3.158225 (-1.917873)  (-0.779785) 0.723632 0.461914  118816768  0.843986 (-0.055136) 0.532945 0.024832,
  row 0.754872 2.368744 (-3.165032)  (-0.579101) 0.915771 1.026123  118980608  0.757156 (-0.113314) 0.623251 (-0.159475),
  row 1.178446 3.087121 (-1.513061)  (-0.490722) 0.572998 0.962158  119013376  0.624318 (-0.081812) 0.722664 (-0.285115),
  row 2.317867 4.363183 0.595611  (-0.598144) 0.409179 0.754882  119013376  0.441172 0.103338 0.812025 (-0.367837),
  row 1.596016 0.549273 4.253856  (-0.451171) 1.020263 0.454833  128548864  0.484679 0.371922 0.728049 (-0.310973),
  row 1.813467 (-0.215304) 4.363183  (-0.573486) 0.885253 (-0.668701)  118816768  0.514618 0.590584 0.568547 (-0.251265),
  row (-0.101316) 3.396585 1.697629  (-0.089599) 0.945556 (-0.401367)  118980608  0.418329 0.681812 0.596298 (-0.067541),
  row 0.675111 (-2.886984) 3.338798  1.016357 1.763427 1.456787  119013376  0.492029 0.778955 0.369920 (-0.119571),
  row 1.232098 (-4.363323) 4.363183  0.458496 0.728759 (-0.209472)  118816768  0.526964 0.825129 0.024972 (-0.202106),
  row (-0.281225) 0.703734 3.864106  0.403808 (-0.416259) (-1.379150)  118915072  0.564862 0.812774 (-0.136531) (-0.041079),
  row (-1.305733) (-0.503597) 3.139463  0.367187 (-0.156250) (-0.404541)  119209984  0.614429 0.728850 (-0.300182) 0.033838,
  row 0.535956 (-3.484864) 3.877162  (-0.025878) (-0.104248) (-1.035156)  128811008  0.478531 0.651134 (-0.588227) 0.031968,
  row (-2.497898) (-0.489739) 2.184314  0.107666 (-0.339111) (-1.222900)  119111680  0.536263 0.496799 (-0.682277) (-0.010514),
  row (-1.078177) (-0.482549) 2.557832  (-0.072265) 0.124511 (-1.116210)  119209984  0.535253 0.356478 (-0.765691) 0.012018,
  row (-1.152737) 2.826002 1.089365  0.085693 0.442138 (-0.970947)  119078912  0.669665 0.267357 (-0.691074) 0.049857,
  row (-1.431571) 2.617208 1.789364  0.618408 0.037841 (-0.629394)  118882304  0.772972 0.127801 (-0.612907) 0.102598,
  row 1.462865 3.247988 3.395782  0.491943 0.195556 (-0.706298)  118915072  0.821496 0.052163 (-0.468165) 0.321318,
  row 0.224362 4.363183 2.237320  0.558105 0.468750 (-0.802490)  128614400  0.863703 (-0.083997) (-0.236604) 0.437012,
  row 1.454470 4.363183 (-0.365507)  0.583740 (-0.278564) (-0.182373)  118882304  0.908700 (-0.113367) 0.013925 0.401520,
  row 3.873828 4.232162 2.486449  0.486816 0.073242 1.458984  119013376  0.818650 0.003907 0.325747 0.472955,
  row 1.904276 1.566066 (-1.516255)  0.282714 0.170166 0.537353  118652928  0.820306 0.026671 0.443968 0.359554,
  row (-0.367374) 3.625887 (-1.994824)  (-0.063476) 0.027099 1.107666  118751232  0.748324 (-0.119049) 0.593844 0.270533,
  row 1.077636 1.866734 (-0.167778)  (-0.178710) (-0.001708) 1.126953  119013376  0.689902 (-0.105435) 0.684498 0.210670,
  row 2.396040 (-0.356728) (-0.005445)  (-0.586425) 0.098388 0.620361  119144448  0.715739 (-0.001268) 0.688961 0.114230,
  row (-0.513179) 2.390438 (-2.527725)  (-0.684814) (-0.029541) 0.574707  128778240  0.616188 (-0.153032) 0.772361 0.018744]

/-- Go `abs` of `madgwick_test.go`. -/
def abs (x : Float32) : Float32 := if lt x (lit 0) then -x else x

/-- The constant `maxDiff` of `TestMadgwick`. -/
def maxDiff : Float32 := lit 0.000001

/-- The condition under which `TestMadgwick` reports an error for a row; `a > b`
is `b < a`. -/
def rowDiffers (filter : Madgwick Float32) (r : fixtureRow) : Bool :=
  lt maxDiff (abs (filter.Quat.W - lit r.W)) || lt maxDiff (abs (filter.Quat.X - lit r.X)) ||
    lt maxDiff (abs (filter.Quat.Y - lit r.Y)) || lt maxDiff (abs (filter.Quat.Z - lit r.Z))

/-- The loop of `TestMadgwick` over the rows: every row updates the filter, and
the result tells whether no row reported an error. -/
def testLoop (filter : Madgwick Float32) : List fixtureRow → Bool
  | [] => true
  | r :: rest =>
    let filter := filter.Update r.gyro r.accel r.timeDelta
    !rowDiffers filter r && testLoop filter rest

/-- Whether after every row the orientation is finite and within `tol` per
component, as rational numbers, of the expected orientation of the row. -/
def nearLoop (tol : ℚ) (filter : Madgwick Float32) : List fixtureRow → Bool
  | [] => true
  | r :: rest =>
    let filter := filter.Update r.gyro r.accel r.timeDelta
    decide (Float32.near tol r.W filter.Quat.W ∧ Float32.near tol r.X filter.Quat.X ∧
      Float32.near tol r.Y filter.Quat.Y ∧ Float32.near tol r.Z filter.Quat.Z) &&
    nearLoop tol filter rest

/-- Go `TestMadgwick`: whether the test passes. -/
def TestMadgwick : Bool :=
  testLoop (NewMadgwick (lit (3.14159265358979 * (5.0 / 180.0)))) madgwickTestFixture

end fusion

/-! ## Theorems -/

section UpdateBody

open Scalar mgl32 fusion

/-- The body of `Update`, statement by statement as in `madgwick.go`: the
definitions `objective`, `jacobian`, `gradient`, `rateOfChange`, `timeDeltaSec` and
`integrated` are its intermediate values. -/
theorem fusion.Madgwick.Update_body {F : Type} [Scalar F] (m : Madgwick F)
    (gyro accel : Vec3 F) (timeDelta : Int) :
    m.Update gyro accel timeDelta =
      (let gyroQuat : mgl32.Quat F := ⟨lit 0, gyro⟩
       let newOrientationWithError := (m.Quat.Scale (lit 0.5)).Mul gyroQuat
       let accel := accel.Normalize
       let f : Vec3 F :=
         ⟨lit 2 * (m.Quat.X * m.Quat.Z - m.Quat.W * m.Quat.Y) - accel.X,
          lit 2 * (m.Quat.W * m.Quat.X + m.Quat.Y * m.Quat.Z) - accel.Y,
          lit 2 * (lit 0.5 - m.Quat.X * m.Quat.X - m.Quat.Y * m.Quat.Y) - accel.Z⟩
       let j := Mat4x3FromCols
         ⟨lit 2 * m.Quat.Z, lit (-2) * m.Quat.W, lit 2 * m.Quat.X, lit (-2) * m.Quat.Y⟩
         ⟨lit 2 * m.Quat.W, lit 2 * m.Quat.Z, lit 2 * m.Quat.Y, lit 2 * m.Quat.X⟩
         ⟨lit (-4) * m.Quat.X, lit (-4) * m.Quat.Y, lit 0, lit 0⟩
       let gradient := vec4ToQuat (j.Mul3x1 f)
       let directionOfError := gradient.Normalize
       let rateOfChange := newOrientationWithError.Sub (directionOfError.Scale m.beta)
       let timeDeltaSec : F := ofInt64 (timeDelta / 1) / lit 1000000000
       { Quat := (m.Quat.Add (rateOfChange.Scale timeDeltaSec)).Normalize, beta := m.beta }) :=
  rfl

end UpdateBody

section ExactLemmas

open mgl32 fusion

theorem mgl32.Quat.ext_components {F : Type} {p q : Quat F} (hW : p.W = q.W)
    (hX : p.V.X = q.V.X) (hY : p.V.Y = q.V.Y) (hZ : p.V.Z = q.V.Z) : p = q := by
  cases p with
  | mk pw pv =>
    cases q with
    | mk qw qv =>
      cases pv; cases qv
      simp only [Quat.mk.injEq, Vec3.mk.injEq] at *
      exact ⟨hW, hX, hY, hZ⟩

theorem Exact.integrated_eq_spec (m : Madgwick ℝ) (g a : Vec3 ℝ) (d : Int) :
    Exact.integrated Real.sqrt m g a d =
      spec.add m.Quat (spec.smul ((d : ℝ) / 10 ^ 9)
        (spec.sub (spec.smul (1 / 2) (spec.hamilton m.Quat ⟨0, g⟩))
          (spec.smul m.beta (Exact.Normalize Real.sqrt (Exact.gradient Real.sqrt m a))))) := by
  apply Quat.ext_components <;>
  · simp only [Exact.integrated, Madgwick.integrated, Madgwick.rateOfChange, timeDeltaSec,
      Quat.Add, Quat.Sub, Quat.Scale, Quat.Mul, Vec3.Add, Vec3.Sub, Vec3.Mul, Vec3.Dot,
      Vec3.Cross, spec.add, spec.sub, spec.smul, spec.hamilton, Exact.Normalize, Exact.gradient]
    simp only [exactScalar]
    push_cast
    rw [Int.ediv_one]
    ring

end ExactLemmas

section NormalizeLemmas

open mgl32 fusion

theorem Exact.Len_eq (q : Quat ℝ) : Exact.Len Real.sqrt q = Real.sqrt (spec.normSq q) := by
  simp only [Exact.Len, Quat.Len, exactScalar, spec.normSq]
  congr 1
  ring

theorem Exact.Normalize_of_floatEqual (q : Quat ℝ)
    (h : Exact.FloatEqual Real.sqrt 1 (Exact.Len Real.sqrt q) = true) :
    Exact.Normalize Real.sqrt q = q := by
  unfold Exact.FloatEqual Exact.Len at h
  unfold Exact.Normalize Quat.Normalize
  have h1 : @Scalar.lit ℝ (exactScalar Real.sqrt) 1 = 1 := by simp [exactScalar]
  simp only [h1, h, if_true]

theorem Exact.Normalize_of_not (q : Quat ℝ)
    (hf : Exact.FloatEqual Real.sqrt 1 (Exact.Len Real.sqrt q) = false)
    (h : Exact.Len Real.sqrt q ≠ 0) :
    Exact.Normalize Real.sqrt q =
      spec.smul (1 / Exact.Len Real.sqrt q) q := by
  unfold Exact.FloatEqual Exact.Len at hf
  unfold Exact.Len at h
  unfold Exact.Normalize Quat.Normalize
  have h1 : @Scalar.lit ℝ (exactScalar Real.sqrt) 1 = 1 := by simp [exactScalar]
  have h0 : @Scalar.lit ℝ (exactScalar Real.sqrt) 0 = 0 := by simp [exactScalar]
  have he : @Scalar.eq ℝ (exactScalar Real.sqrt) (@Quat.Len ℝ (exactScalar Real.sqrt) q) 0
      = false := by
    simp only [exactScalar, decide_eq_false_iff_not]
    exact h
  simp only [h1, hf, h0, he]
  apply Quat.ext_components <;>
  · simp only [exactScalar, spec.smul, Vec3.Mul, Exact.Len]
    simp
    try ring

theorem spec.normSq_nonneg (q : Quat ℝ) : 0 ≤ spec.normSq q := by
  unfold spec.normSq; positivity

end NormalizeLemmas

section Claims

open mgl32 fusion

/-- C3: for every `gyroMeasurementError`, `NewMadgwick` returns a filter whose
orientation is the identity quaternion `(W=1, X=0, Y=0, Z=0)`: in every reading of
the scalars the components are the constants `1, 0, 0, 0`, and over exact real
arithmetic they are the numbers `1, 0, 0, 0`. -/
theorem NewMadgwick_orientation_identity :
    (∀ (F : Type) [Scalar F] (e : F),
      (NewMadgwick e).Quat = ⟨Scalar.lit 1, ⟨Scalar.lit 0, Scalar.lit 0, Scalar.lit 0⟩⟩) ∧
    (∀ e : ℝ, (Exact.NewMadgwick Real.sqrt e).Quat = ⟨1, ⟨0, 0, 0⟩⟩) := by
  refine ⟨fun F _ e => rfl, fun e => ?_⟩
  simp [Exact.NewMadgwick, fusion.NewMadgwick, QuatIdent, exactScalar]

/-- C4: for every `gyroMeasurementError` `e`, `NewMadgwick e` stores the gain
`sqrt(3/4) * e`; the gain is non-negative when `e` is, and it is zero exactly when
`e` is zero. -/
theorem NewMadgwick_beta (e : ℝ) :
    (Exact.NewMadgwick Real.sqrt e).beta = Real.sqrt (3 / 4) * e ∧
    (0 ≤ e → 0 ≤ (Exact.NewMadgwick Real.sqrt e).beta) ∧
    ((Exact.NewMadgwick Real.sqrt e).beta = 0 ↔ e = 0) := by
  have hb : (Exact.NewMadgwick Real.sqrt e).beta = Real.sqrt (3 / 4) * e := by
    simp [Exact.NewMadgwick, NewMadgwick, exactScalar]
  have hpos : 0 < Real.sqrt (3 / 4) := Real.sqrt_pos.mpr (by norm_num)
  refine ⟨hb, fun he => ?_, ?_⟩
  · rw [hb]; exact mul_nonneg hpos.le he
  · rw [hb]
    constructor
    · intro h
      rcases mul_eq_zero.mp h with h | h
      · exact absurd h hpos.ne'
      · exact h
    · intro h; rw [h, mul_zero]

end Claims

section Claims2

open mgl32 fusion

theorem Exact.Update_Quat (m : Madgwick ℝ) (gyro accel : Vec3 ℝ) (d : Int) :
    (Exact.Update Real.sqrt m gyro accel d).Quat =
      Exact.Normalize Real.sqrt (Exact.integrated Real.sqrt m gyro accel d) := rfl

end Claims2

section Claims3

open mgl32 fusion

end Claims3

section Claims4

open mgl32 fusion

theorem hasDerivAt_quadratic (A B C t : ℝ) :
    HasDerivAt (fun s : ℝ => A * s ^ 2 + B * s + C) (2 * A * t + B) t := by
  have h := (((hasDerivAt_id t).pow 2).const_mul A).add ((hasDerivAt_id t).const_mul B)
    |>.add_const C
  convert h using 1
  simp
  ring

theorem hasDerivAt_halfSq (f1 f2 f3 : ℝ → ℝ) (d1 d2 d3 t : ℝ) (h1 : HasDerivAt f1 d1 t)
    (h2 : HasDerivAt f2 d2 t) (h3 : HasDerivAt f3 d3 t) :
    HasDerivAt (fun s => spec.halfSq (⟨f1 s, f2 s, f3 s⟩ : Vec3 ℝ))
      (f1 t * d1 + f2 t * d2 + f3 t * d3) t := by
  have h := (((h1.pow 2).add (h2.pow 2)).add (h3.pow 2)).const_mul (1 / 2)
  unfold spec.halfSq
  convert h using 1
  simp
  ring

theorem Exact.objectiveAt_eq (a : Vec3 ℝ) (w x y z : ℝ) :
    Exact.objectiveAt Real.sqrt a w x y z =
      ⟨2 * (x * z - w * y) - a.X, 2 * (w * x + y * z) - a.Y,
       2 * (1 / 2 - x ^ 2 - y ^ 2) - a.Z⟩ := by
  simp only [Exact.objectiveAt, Madgwick.objective, Quat.X, Quat.Y, Quat.Z, exactScalar,
    Vec3.mk.injEq]
  push_cast
  refine ⟨by ring, by ring, by ring⟩

theorem Exact.objectiveAt_hasDerivAt (a : Vec3 ℝ) (w x y z : ℝ) :
    (HasDerivAt (fun t => (Exact.objectiveAt Real.sqrt a w t y z).X) (2 * z) x ∧
     HasDerivAt (fun t => (Exact.objectiveAt Real.sqrt a w t y z).Y) (2 * w) x ∧
     HasDerivAt (fun t => (Exact.objectiveAt Real.sqrt a w t y z).Z) (-4 * x) x) ∧
    (HasDerivAt (fun t => (Exact.objectiveAt Real.sqrt a w x t z).X) (-2 * w) y ∧
     HasDerivAt (fun t => (Exact.objectiveAt Real.sqrt a w x t z).Y) (2 * z) y ∧
     HasDerivAt (fun t => (Exact.objectiveAt Real.sqrt a w x t z).Z) (-4 * y) y) ∧
    (HasDerivAt (fun t => (Exact.objectiveAt Real.sqrt a w x y t).X) (2 * x) z ∧
     HasDerivAt (fun t => (Exact.objectiveAt Real.sqrt a w x y t).Y) (2 * y) z ∧
     HasDerivAt (fun t => (Exact.objectiveAt Real.sqrt a w x y t).Z) 0 z) ∧
    (HasDerivAt (fun t => (Exact.objectiveAt Real.sqrt a t x y z).X) (-2 * y) w ∧
     HasDerivAt (fun t => (Exact.objectiveAt Real.sqrt a t x y z).Y) (2 * x) w ∧
     HasDerivAt (fun t => (Exact.objectiveAt Real.sqrt a t x y z).Z) 0 w) := by
  simp only [Exact.objectiveAt_eq]
  refine ⟨⟨?_, ?_, ?_⟩, ⟨?_, ?_, ?_⟩, ⟨?_, ?_, ?_⟩, ⟨?_, ?_, ?_⟩⟩
  · convert hasDerivAt_quadratic 0 (2 * z) (-2 * (w * y) - a.X) x using 1
    · funext t; ring
    · ring
  · convert hasDerivAt_quadratic 0 (2 * w) (2 * (y * z) - a.Y) x using 1
    · funext t; ring
    · ring
  · convert hasDerivAt_quadratic (-2) 0 (1 - 2 * y ^ 2 - a.Z) x using 1
    · funext t; ring
    · ring
  · convert hasDerivAt_quadratic 0 (-2 * w) (2 * (x * z) - a.X) y using 1
    · funext t; ring
    · ring
  · convert hasDerivAt_quadratic 0 (2 * z) (2 * (w * x) - a.Y) y using 1
    · funext t; ring
    · ring
  · convert hasDerivAt_quadratic (-2) 0 (1 - 2 * x ^ 2 - a.Z) y using 1
    · funext t; ring
    · ring
  · convert hasDerivAt_quadratic 0 (2 * x) (-2 * (w * y) - a.X) z using 1
    · funext t; ring
    · ring
  · convert hasDerivAt_quadratic 0 (2 * y) (2 * (w * x) - a.Y) z using 1
    · funext t; ring
    · ring
  · convert hasDerivAt_quadratic 0 0 (2 * (1 / 2 - x ^ 2 - y ^ 2) - a.Z) z using 1
    · funext t; ring
    · ring
  · convert hasDerivAt_quadratic 0 (-2 * y) (2 * (x * z) - a.X) w using 1
    · funext t; ring
    · ring
  · convert hasDerivAt_quadratic 0 (2 * x) (2 * (y * z) - a.Y) w using 1
    · funext t; ring
    · ring
  · convert hasDerivAt_quadratic 0 0 (2 * (1 / 2 - x ^ 2 - y ^ 2) - a.Z) w using 1
    · funext t; ring
    · ring

theorem Exact.gradient_components (m : Madgwick ℝ) (accel : Vec3 ℝ) :
    Exact.gradient Real.sqrt m accel =
      (let f := Exact.objectiveAt Real.sqrt (Exact.VecNormalize Real.sqrt accel) m.Quat.W
          m.Quat.V.X m.Quat.V.Y m.Quat.V.Z
       ⟨f.X * (-2 * m.Quat.V.Y) + f.Y * (2 * m.Quat.V.X) + f.Z * 0,
        ⟨f.X * (2 * m.Quat.V.Z) + f.Y * (2 * m.Quat.W) + f.Z * (-4 * m.Quat.V.X),
         f.X * (-2 * m.Quat.W) + f.Y * (2 * m.Quat.V.Z) + f.Z * (-4 * m.Quat.V.Y),
         f.X * (2 * m.Quat.V.X) + f.Y * (2 * m.Quat.V.Y) + f.Z * 0⟩⟩) := by
  apply Quat.ext_components <;>
  · simp only [Exact.gradient, Madgwick.gradient, Exact.objectiveAt, Exact.VecNormalize,
      Madgwick.objective, Madgwick.jacobian, vec4ToQuat, Mat4x3FromCols, Mat4x3.Mul3x1,
      Quat.X, Quat.Y, Quat.Z, exactScalar]
    push_cast
    ring

end Claims4

section Claims5

open mgl32 fusion

/-- C10: the Jacobian matches the closed-form partial derivatives of `f` and keeps
the component mapping.  For every orientation `(w,x,y,z)` and accel vector, with
`f` the objective function of `Update` at the normalized accel, the quaternion
`gradient` of `Update` has in its `X`, `Y`, `Z`, `W` components the sums
`Σ f_i ∂f_i/∂c` for `c = x, y, z, w`; these are the partial derivatives of
`0.5 |f|²`; and `vec4ToQuat` maps the components `X, Y, Z, W` of the vector to the
components `X, Y, Z, W` of the quaternion. -/
theorem gradient_eq_partials (w x y z beta : ℝ) (accel : Vec3 ℝ) :
    let f := Exact.objectiveAt Real.sqrt (Exact.VecNormalize Real.sqrt accel)
    let g := Exact.gradient Real.sqrt ⟨⟨w, ⟨x, y, z⟩⟩, beta⟩ accel
    (g.V.X = (f w x y z).X * deriv (fun t => (f w t y z).X) x +
        (f w x y z).Y * deriv (fun t => (f w t y z).Y) x +
        (f w x y z).Z * deriv (fun t => (f w t y z).Z) x ∧
     g.V.Y = (f w x y z).X * deriv (fun t => (f w x t z).X) y +
        (f w x y z).Y * deriv (fun t => (f w x t z).Y) y +
        (f w x y z).Z * deriv (fun t => (f w x t z).Z) y ∧
     g.V.Z = (f w x y z).X * deriv (fun t => (f w x y t).X) z +
        (f w x y z).Y * deriv (fun t => (f w x y t).Y) z +
        (f w x y z).Z * deriv (fun t => (f w x y t).Z) z ∧
     g.W = (f w x y z).X * deriv (fun t => (f t x y z).X) w +
        (f w x y z).Y * deriv (fun t => (f t x y z).Y) w +
        (f w x y z).Z * deriv (fun t => (f t x y z).Z) w) ∧
    (g.V.X = deriv (fun t => spec.halfSq (f w t y z)) x ∧
     g.V.Y = deriv (fun t => spec.halfSq (f w x t z)) y ∧
     g.V.Z = deriv (fun t => spec.halfSq (f w x y t)) z ∧
     g.W = deriv (fun t => spec.halfSq (f t x y z)) w) ∧
    (∀ v : Vec4 ℝ, (vec4ToQuat v).V.X = v.X ∧ (vec4ToQuat v).V.Y = v.Y ∧
      (vec4ToQuat v).V.Z = v.Z ∧ (vec4ToQuat v).W = v.W) := by
  intro f g
  obtain ⟨⟨hx1, hx2, hx3⟩, ⟨hy1, hy2, hy3⟩, ⟨hz1, hz2, hz3⟩, ⟨hw1, hw2, hw3⟩⟩ :=
    Exact.objectiveAt_hasDerivAt (Exact.VecNormalize Real.sqrt accel) w x y z
  have hg := Exact.gradient_components ⟨⟨w, ⟨x, y, z⟩⟩, beta⟩ accel
  simp only at hg
  refine ⟨⟨?_, ?_, ?_, ?_⟩, ⟨?_, ?_, ?_, ?_⟩, fun v => ⟨rfl, rfl, rfl, rfl⟩⟩
  · rw [hx1.deriv, hx2.deriv, hx3.deriv]; show (Exact.gradient _ _ _).V.X = _; rw [hg]
  · rw [hy1.deriv, hy2.deriv, hy3.deriv]; show (Exact.gradient _ _ _).V.Y = _; rw [hg]
  · rw [hz1.deriv, hz2.deriv, hz3.deriv]; show (Exact.gradient _ _ _).V.Z = _; rw [hg]
  · rw [hw1.deriv, hw2.deriv, hw3.deriv]; show (Exact.gradient _ _ _).W = _; rw [hg]
  · rw [(hasDerivAt_halfSq _ _ _ _ _ _ x hx1 hx2 hx3).deriv]
    show (Exact.gradient _ _ _).V.X = _; rw [hg]
  · rw [(hasDerivAt_halfSq _ _ _ _ _ _ y hy1 hy2 hy3).deriv]
    show (Exact.gradient _ _ _).V.Y = _; rw [hg]
  · rw [(hasDerivAt_halfSq _ _ _ _ _ _ z hz1 hz2 hz3).deriv]
    show (Exact.gradient _ _ _).V.Z = _; rw [hg]
  · rw [(hasDerivAt_halfSq _ _ _ _ _ _ w hw1 hw2 hw3).deriv]
    show (Exact.gradient _ _ _).W = _; rw [hg]

end Claims5

section Claims6

open mgl32 fusion

end Claims6

section Float32Lemmas

namespace Float32

theorem bitStep_inv (k n : Nat) (x : Nat × Nat)
    (h : x.1 * 2 ^ x.2 ≤ n ∧ n < (x.1 + 1) * 2 ^ x.2) :
    (bitStep k x).1 * 2 ^ (bitStep k x).2 ≤ n ∧
      n < ((bitStep k x).1 + 1) * 2 ^ (bitStep k x).2 := by
  unfold bitStep
  split_ifs with hlt
  · exact h
  · simp only
    have hk : 0 < 2 ^ k := Nat.two_pow_pos k
    have h1 : x.1 / 2 ^ k * 2 ^ k ≤ x.1 := Nat.div_mul_le_self _ _
    have h2 : x.1 < (x.1 / 2 ^ k + 1) * 2 ^ k := by
      have := Nat.lt_succ_iff.mpr (Nat.le_refl (x.1 / 2 ^ k))
      exact (Nat.div_lt_iff_lt_mul hk).mp this
    rw [pow_add]
    constructor
    · calc x.1 / 2 ^ k * (2 ^ x.2 * 2 ^ k) = x.1 / 2 ^ k * 2 ^ k * 2 ^ x.2 := by ring
        _ ≤ x.1 * 2 ^ x.2 := Nat.mul_le_mul_right _ h1
        _ ≤ n := h.1
    · calc n < (x.1 + 1) * 2 ^ x.2 := h.2
        _ ≤ (x.1 / 2 ^ k + 1) * 2 ^ k * 2 ^ x.2 := Nat.mul_le_mul_right _ h2
        _ = (x.1 / 2 ^ k + 1) * (2 ^ x.2 * 2 ^ k) := by ring

theorem bitStep_lt (k : Nat) (x : Nat × Nat) (h : x.1 < 2 ^ (k + k)) :
    (bitStep k x).1 < 2 ^ k := by
  unfold bitStep
  split_ifs with hlt
  · exact hlt
  · simp only
    rw [pow_add] at h
    exact Nat.div_lt_of_lt_mul h

theorem bitStep_pos (k : Nat) (x : Nat × Nat) (h : 0 < x.1) : 0 < (bitStep k x).1 := by
  unfold bitStep
  split_ifs with hlt
  · exact h
  · simp only
    exact Nat.div_pos (not_lt.mp hlt) (Nat.two_pow_pos k)

set_option exponentiation.threshold 2048 in
theorem bitLengthSmall_spec (n : Nat) (hn : 0 < n) (hlt : n < 2 ^ 1024) :
    2 ^ (bitLengthSmall n - 1) ≤ n ∧ n < 2 ^ bitLengthSmall n := by
  unfold bitLengthSmall
  have i0 : ((n, 0) : Nat × Nat).1 * 2 ^ ((n, 0) : Nat × Nat).2 ≤ n ∧
      n < (((n, 0) : Nat × Nat).1 + 1) * 2 ^ ((n, 0) : Nat × Nat).2 := by simp
  have p0 : 0 < ((n, 0) : Nat × Nat).1 := hn
  have l0 : ((n, 0) : Nat × Nat).1 < 2 ^ (512 + 512) := hlt
  have i1 := bitStep_inv 512 n _ i0
  have p1 := bitStep_pos 512 _ p0
  have l1 := bitStep_lt 512 _ l0
  have i2 := bitStep_inv 256 n _ i1
  have p2 := bitStep_pos 256 _ p1
  have l2 := bitStep_lt 256 _ l1
  have i3 := bitStep_inv 128 n _ i2
  have p3 := bitStep_pos 128 _ p2
  have l3 := bitStep_lt 128 _ l2
  have i4 := bitStep_inv 64 n _ i3
  have p4 := bitStep_pos 64 _ p3
  have l4 := bitStep_lt 64 _ l3
  have i5 := bitStep_inv 32 n _ i4
  have p5 := bitStep_pos 32 _ p4
  have l5 := bitStep_lt 32 _ l4
  have i6 := bitStep_inv 16 n _ i5
  have p6 := bitStep_pos 16 _ p5
  have l6 := bitStep_lt 16 _ l5
  have i7 := bitStep_inv 8 n _ i6
  have p7 := bitStep_pos 8 _ p6
  have l7 := bitStep_lt 8 _ l6
  have i8 := bitStep_inv 4 n _ i7
  have p8 := bitStep_pos 4 _ p7
  have l8 := bitStep_lt 4 _ l7
  have i9 := bitStep_inv 2 n _ i8
  have p9 := bitStep_pos 2 _ p8
  have l9 := bitStep_lt 2 _ l8
  have i10 := bitStep_inv 1 n _ i9
  have p10 := bitStep_pos 1 _ p9
  have l10 := bitStep_lt 1 _ l9
  generalize bitStep 1 (bitStep 2 (bitStep 4 (bitStep 8 (bitStep 16 (bitStep 32 (bitStep 64
    (bitStep 128 (bitStep 256 (bitStep 512 (n, 0)))))))))) = x at i10 p10 l10
  have hx : x.1 = 1 := by omega
  show 2 ^ (x.1 + x.2 - 1) ≤ n ∧ n < 2 ^ (x.1 + x.2)
  rw [hx] at i10 ⊢
  simp only [one_mul] at i10
  have : 1 + x.2 - 1 = x.2 := by omega
  rw [this, pow_add, pow_one]
  exact ⟨i10.1, by omega⟩

set_option exponentiation.threshold 2048 in
theorem bitLengthAux_succ (fuel n : Nat) :
    bitLengthAux (fuel + 1) n =
      if n < 2 ^ 1024 then bitLengthSmall n else bitLengthAux fuel (n / 2 ^ 1024) + 1024 :=
  rfl

set_option exponentiation.threshold 2048 in
theorem bitLengthAux_spec (fuel n : Nat) (hn : 0 < n) (hf : n ≤ fuel) :
    2 ^ (bitLengthAux fuel n - 1) ≤ n ∧ n < 2 ^ bitLengthAux fuel n := by
  induction fuel generalizing n with
  | zero => omega
  | succ fuel ih =>
    rw [bitLengthAux_succ]
    split_ifs with hlt
    · exact bitLengthSmall_spec n hn hlt
    · have hk : 0 < 2 ^ 1024 := Nat.two_pow_pos 1024
      have hk1 : 1 < 2 ^ 1024 := Nat.one_lt_two_pow (by omega)
      have hq : 0 < n / 2 ^ 1024 := Nat.div_pos (not_lt.mp hlt) hk
      have hql : n / 2 ^ 1024 < n := Nat.div_lt_self hn hk1
      obtain ⟨h1, h2⟩ := ih (n / 2 ^ 1024) hq (by omega)
      have hb : 0 < bitLengthAux fuel (n / 2 ^ 1024) := by
        by_contra h0
        have : bitLengthAux fuel (n / 2 ^ 1024) = 0 := by omega
        rw [this] at h2
        simp at h2
        omega
      have e1 : bitLengthAux fuel (n / 2 ^ 1024) + 1024 - 1 =
          (bitLengthAux fuel (n / 2 ^ 1024) - 1) + 1024 := by omega
      rw [e1, pow_add, pow_add]
      constructor
      · calc 2 ^ (bitLengthAux fuel (n / 2 ^ 1024) - 1) * 2 ^ 1024
            ≤ n / 2 ^ 1024 * 2 ^ 1024 := Nat.mul_le_mul_right _ h1
          _ ≤ n := Nat.div_mul_le_self _ _
      · have := (Nat.div_lt_iff_lt_mul hk).mp h2
        exact this

/-- The function `bitLength` counts the binary digits: a positive `n` lies between
`2 ^ (bitLength n - 1)` and `2 ^ bitLength n`. -/
theorem bitLength_spec (n : Nat) (hn : 0 < n) :
    2 ^ (bitLength n - 1) ≤ n ∧ n < 2 ^ bitLength n :=
  bitLengthAux_spec n n hn (Nat.le_refl n)


theorem isqrtAux_spec (n i r : Nat) (h1 : r * r ≤ n) (h2 : n < (r + 2 ^ i) * (r + 2 ^ i)) :
    isqrtAux n i r * isqrtAux n i r ≤ n ∧ n < (isqrtAux n i r + 1) * (isqrtAux n i r + 1) := by
  induction i generalizing r with
  | zero =>
    simp only [isqrtAux]
    simpa using ⟨h1, h2⟩
  | succ i ih =>
    simp only [isqrtAux]
    split_ifs with hc
    · apply ih _ hc
      have : r + 2 ^ i + 2 ^ i = r + 2 ^ (i + 1) := by rw [pow_succ]; ring
      rw [this]
      exact h2
    · exact ih _ h1 (not_le.mp hc)

/-- The function `isqrt` is the integer square root. -/
theorem isqrt_spec (n : Nat) : isqrt n * isqrt n ≤ n ∧ n < (isqrt n + 1) * (isqrt n + 1) := by
  unfold isqrt
  apply isqrtAux_spec n _ 0 (by simp)
  rw [Nat.zero_add, ← pow_add]
  rcases Nat.eq_zero_or_pos n with h0 | hpos
  · rw [h0]; exact Nat.two_pow_pos _
  · calc n < 2 ^ bitLength n := (bitLength_spec n hpos).2
      _ ≤ 2 ^ (bitLength n / 2 + 1 + (bitLength n / 2 + 1)) :=
        Nat.pow_le_pow_right (by norm_num) (by omega)


theorem roundNE_exact (p emin M E bias bl e0 : Nat)
    (hb1 : 2 ^ (bl - 1) ≤ M) (hb2 : M < 2 ^ bl) (hbl : 0 < bl)
    (he : E + bl + emin - (p + bias) = e0) (hA : e0 + bias ≤ E + emin) :
    M * 2 ^ (E + emin - (e0 + bias)) < 2 ^ p ∧
    (0 < e0 → 2 ^ (p - 1) ≤ M * 2 ^ (E + emin - (e0 + bias))) ∧
    M * 2 ^ (E + emin - (e0 + bias)) * 2 ^ (e0 + bias) = M * 2 ^ (E + emin) := by
  refine ⟨?_, fun h0 => ?_, ?_⟩
  · calc M * 2 ^ (E + emin - (e0 + bias)) < 2 ^ bl * 2 ^ (E + emin - (e0 + bias)) :=
        Nat.mul_lt_mul_of_pos_right hb2 (Nat.two_pow_pos _)
      _ = 2 ^ (bl + (E + emin - (e0 + bias))) := (pow_add 2 _ _).symm
      _ ≤ 2 ^ p := Nat.pow_le_pow_right (by norm_num) (by omega)
  · calc 2 ^ (p - 1) = 2 ^ (bl - 1 + (E + emin - (e0 + bias))) := by
          congr 1; omega
      _ = 2 ^ (bl - 1) * 2 ^ (E + emin - (e0 + bias)) := pow_add 2 _ _
      _ ≤ M * 2 ^ (E + emin - (e0 + bias)) := Nat.mul_le_mul_right _ hb1
  · rw [Nat.mul_assoc, ← pow_add]
    congr 2
    omega

theorem roundNE_core (M d q r half m : Nat) (hd : 0 < d) (hq : q = M / 2 ^ d)
    (hr : r = M % 2 ^ d) (hh : half = 2 ^ (d - 1))
    (hm : m = if half < r ∨ (r = half ∧ q % 2 = 1) then q + 1 else q) :
    (2 * (m * 2 ^ d) ≤ 2 * M + 2 ^ d ∧ 2 * M ≤ 2 * (m * 2 ^ d) + 2 ^ d) ∧
    ((2 * (m * 2 ^ d) = 2 * M + 2 ^ d ∨ 2 * M = 2 * (m * 2 ^ d) + 2 ^ d) → m % 2 = 0) ∧
    q ≤ m ∧ m ≤ q + 1 := by
  have hD : 2 ^ d = 2 * half := by
    rw [hh, ← pow_succ']
    congr 1; omega
  have hMq : M = q * 2 ^ d + r := by
    rw [hq, hr]; exact (Nat.div_add_mod' M (2 ^ d)).symm
  have hrlt : r < 2 ^ d := by rw [hr]; exact Nat.mod_lt _ (Nat.two_pow_pos d)
  generalize 2 ^ d = D at *
  generalize hqD : q * D = a at *
  split_ifs at hm with hc
  · have hmD : m * D = a + D := by rw [hm, Nat.add_mul, hqD, one_mul]
    rw [hmD]
    refine ⟨by omega, fun ht => ?_, by omega, by omega⟩
    rcases hc with hc | ⟨hc1, hc2⟩
    · omega
    · omega
  · have hmD : m * D = a := by rw [hm, hqD]
    rw [hmD]
    refine ⟨by omega, fun ht => ?_, by omega, by omega⟩
    have hrh : r = half := by omega
    have : ¬ q % 2 = 1 := fun h => hc (Or.inr ⟨hrh, h⟩)
    omega


theorem roundNE_eq (p emin M E bias : Nat) :
    roundNE p emin M E bias =
      if E + bitLength M + emin - (p + bias) + bias ≤ E + emin then
        (M * 2 ^ (E + emin - (E + bitLength M + emin - (p + bias) + bias)),
          E + bitLength M + emin - (p + bias))
      else if (if 2 ^ (E + bitLength M + emin - (p + bias) + bias - (E + emin) - 1) <
            M % 2 ^ (E + bitLength M + emin - (p + bias) + bias - (E + emin)) ∨
          (M % 2 ^ (E + bitLength M + emin - (p + bias) + bias - (E + emin)) =
            2 ^ (E + bitLength M + emin - (p + bias) + bias - (E + emin) - 1) ∧
            M / 2 ^ (E + bitLength M + emin - (p + bias) + bias - (E + emin)) % 2 = 1)
          then M / 2 ^ (E + bitLength M + emin - (p + bias) + bias - (E + emin)) + 1
          else M / 2 ^ (E + bitLength M + emin - (p + bias) + bias - (E + emin))) = 2 ^ p
        then (2 ^ (p - 1), E + bitLength M + emin - (p + bias) + 1)
      else
        (if 2 ^ (E + bitLength M + emin - (p + bias) + bias - (E + emin) - 1) <
            M % 2 ^ (E + bitLength M + emin - (p + bias) + bias - (E + emin)) ∨
          (M % 2 ^ (E + bitLength M + emin - (p + bias) + bias - (E + emin)) =
            2 ^ (E + bitLength M + emin - (p + bias) + bias - (E + emin) - 1) ∧
            M / 2 ^ (E + bitLength M + emin - (p + bias) + bias - (E + emin)) % 2 = 1)
          then M / 2 ^ (E + bitLength M + emin - (p + bias) + bias - (E + emin)) + 1
          else M / 2 ^ (E + bitLength M + emin - (p + bias) + bias - (E + emin)),
         E + bitLength M + emin - (p + bias)) := rfl

/-- The function `roundNE` rounds to nearest, ties to even.  For `M > 0` and the
exponent `e0` that the digits of `M` call for, the result `(m, e)` has `m < 2^p`,
is normalized unless `e0 = 0`, has `e = e0` (or `e = e0 + 1` with `m = 2^(p-1)`,
after a carry), differs from `M * 2^(E - bias)` by at most half a unit of the last
place, `2^(e0 - emin)`, and has an even `m` when the difference is exactly half a
unit; all values are scaled by `2^(emin + bias)`. -/
theorem roundNE_spec (p emin M E bias : Nat) (hp : 2 ≤ p) (hM : 0 < M) :
    (roundNE p emin M E bias).1 < 2 ^ p ∧
    ((roundNE p emin M E bias).2 = E + bitLength M + emin - (p + bias) ∨
      ((roundNE p emin M E bias).2 = E + bitLength M + emin - (p + bias) + 1 ∧
        (roundNE p emin M E bias).1 = 2 ^ (p - 1))) ∧
    (0 < E + bitLength M + emin - (p + bias) → 2 ^ (p - 1) ≤ (roundNE p emin M E bias).1) ∧
    (2 * ((roundNE p emin M E bias).1 * 2 ^ ((roundNE p emin M E bias).2 + bias)) ≤
        2 * (M * 2 ^ (E + emin)) + 2 ^ (E + bitLength M + emin - (p + bias) + bias) ∧
      2 * (M * 2 ^ (E + emin)) ≤
        2 * ((roundNE p emin M E bias).1 * 2 ^ ((roundNE p emin M E bias).2 + bias)) +
          2 ^ (E + bitLength M + emin - (p + bias) + bias)) ∧
    ((2 * ((roundNE p emin M E bias).1 * 2 ^ ((roundNE p emin M E bias).2 + bias)) =
        2 * (M * 2 ^ (E + emin)) + 2 ^ (E + bitLength M + emin - (p + bias) + bias) ∨
      2 * (M * 2 ^ (E + emin)) =
        2 * ((roundNE p emin M E bias).1 * 2 ^ ((roundNE p emin M E bias).2 + bias)) +
          2 ^ (E + bitLength M + emin - (p + bias) + bias)) →
      (roundNE p emin M E bias).1 % 2 = 0) := by
  obtain ⟨hb1, hb2⟩ := bitLength_spec M hM
  have hbl : 0 < bitLength M := by
    by_contra h
    have h0 : bitLength M = 0 := by omega
    rw [h0] at hb2
    simp at hb2
    omega
  rw [roundNE_eq]
  generalize bitLength M = bl at *
  generalize he : E + bl + emin - (p + bias) = e0
  have hpos : 0 < 2 ^ (e0 + bias) := Nat.two_pow_pos _
  generalize hd : e0 + bias - (E + emin) = d at *
  generalize hq : M / 2 ^ d = q at *
  generalize hr : M % 2 ^ d = r at *
  generalize hh : 2 ^ (d - 1) = half at *
  generalize hm : (if half < r ∨ (r = half ∧ q % 2 = 1) then q + 1 else q) = m at *
  split_ifs with hA hC
  · -- the value is representable as it is
    obtain ⟨h1, h2, h3⟩ := roundNE_exact p emin M E bias bl e0 hb1 hb2 hbl he hA
    simp only
    rw [h3]
    refine ⟨h1, by simp, h2, ⟨by omega, by omega⟩, fun ht => ?_⟩
    omega
  all_goals
    have hdpos : 0 < d := by omega
    obtain ⟨⟨c1, c2⟩, c3, c4, c5⟩ := roundNE_core M d q r half m hdpos hq.symm hr.symm hh.symm
      hm.symm
    have hK : 0 < 2 ^ (E + emin) := Nat.two_pow_pos _
    have hpow : 2 ^ (e0 + bias) = 2 ^ d * 2 ^ (E + emin) := by
      rw [← pow_add]; congr 1; omega
    have hqlt : q < 2 ^ p := by
      rw [← hq]
      apply Nat.div_lt_of_lt_mul
      calc M < 2 ^ bl := hb2
        _ ≤ 2 ^ (d + p) := Nat.pow_le_pow_right (by norm_num) (by omega)
        _ = 2 ^ d * 2 ^ p := pow_add 2 _ _
    have hnorm : 0 < e0 → 2 ^ (p - 1) ≤ q := by
      intro h0
      rw [← hq]
      apply (Nat.le_div_iff_mul_le (Nat.two_pow_pos d)).mpr
      calc 2 ^ (p - 1) * 2 ^ d = 2 ^ (p - 1 + d) := (pow_add 2 _ _).symm
        _ = 2 ^ (bl - 1) := by congr 1; omega
        _ ≤ M := hb1
    have hval : m * 2 ^ (e0 + bias) = m * 2 ^ d * 2 ^ (E + emin) := by
      rw [hpow, Nat.mul_assoc]
    have k1 : 2 * (m * 2 ^ (e0 + bias)) ≤ 2 * (M * 2 ^ (E + emin)) + 2 ^ (e0 + bias) := by
      have := Nat.mul_le_mul_right (2 ^ (E + emin)) c1
      rw [hval, hpow]
      calc 2 * (m * 2 ^ d * 2 ^ (E + emin)) = 2 * (m * 2 ^ d) * 2 ^ (E + emin) := by ring
        _ ≤ (2 * M + 2 ^ d) * 2 ^ (E + emin) := this
        _ = 2 * (M * 2 ^ (E + emin)) + 2 ^ d * 2 ^ (E + emin) := by ring
    have k2 : 2 * (M * 2 ^ (E + emin)) ≤ 2 * (m * 2 ^ (e0 + bias)) + 2 ^ (e0 + bias) := by
      have := Nat.mul_le_mul_right (2 ^ (E + emin)) c2
      rw [hval, hpow]
      calc 2 * (M * 2 ^ (E + emin)) = 2 * M * 2 ^ (E + emin) := by ring
        _ ≤ (2 * (m * 2 ^ d) + 2 ^ d) * 2 ^ (E + emin) := this
        _ = 2 * (m * 2 ^ d * 2 ^ (E + emin)) + 2 ^ d * 2 ^ (E + emin) := by ring
    have k3 : (2 * (m * 2 ^ (e0 + bias)) = 2 * (M * 2 ^ (E + emin)) + 2 ^ (e0 + bias) ∨
        2 * (M * 2 ^ (E + emin)) = 2 * (m * 2 ^ (e0 + bias)) + 2 ^ (e0 + bias)) →
        m % 2 = 0 := by
      intro ht
      apply c3
      rw [hval, hpow] at ht
      rcases ht with ht | ht
      · left
        apply Nat.eq_of_mul_eq_mul_right hK
        calc 2 * (m * 2 ^ d) * 2 ^ (E + emin) = 2 * (m * 2 ^ d * 2 ^ (E + emin)) := by ring
          _ = 2 * (M * 2 ^ (E + emin)) + 2 ^ d * 2 ^ (E + emin) := ht
          _ = (2 * M + 2 ^ d) * 2 ^ (E + emin) := by ring
      · right
        apply Nat.eq_of_mul_eq_mul_right hK
        calc 2 * M * 2 ^ (E + emin) = 2 * (M * 2 ^ (E + emin)) := by ring
          _ = 2 * (m * 2 ^ d * 2 ^ (E + emin)) + 2 ^ d * 2 ^ (E + emin) := ht
          _ = (2 * (m * 2 ^ d) + 2 ^ d) * 2 ^ (E + emin) := by ring
  · -- the rounded digits carry into the next exponent
    have hcarry : 2 ^ (p - 1) * 2 ^ (e0 + 1 + bias) = m * 2 ^ (e0 + bias) := by
      rw [hC, ← pow_add, ← pow_add]; congr 1; omega
    simp only
    rw [hcarry]
    refine ⟨Nat.pow_lt_pow_right (by norm_num) (by omega), by simp, fun _ => le_refl _,
      ⟨k1, k2⟩, fun _ => ?_⟩
    have : p - 1 = (p - 2) + 1 := by omega
    rw [this, pow_succ]
    exact Nat.mul_mod_left _ _
  · simp only
    have hmlt : m < 2 ^ p := by omega
    exact ⟨hmlt, by simp, fun h0 => le_trans (hnorm h0) c4, ⟨k1, k2⟩, k3⟩

end Float32

end Float32Lemmas

section Float32Claims

open mgl32 fusion

/-- The test `TestMadgwick` passes in the `float32` reading: no row of the fixture
differs from the computed orientation by more than `maxDiff`; and after every one
of the 41 rows the orientation is finite and within `1e-6` per component of the
expected orientation. -/
theorem TestMadgwick_passes :
    TestMadgwick = true ∧
    nearLoop 1e-6 (NewMadgwick (Scalar.lit (3.14159265358979 * (5.0 / 180.0))))
      madgwickTestFixture = true := by
  decide!

/-- C5: golden vectors.  In `float32` arithmetic, starting from
`NewMadgwick(3.14159265358979 * 5/180)`, the update with the first sample of the
fixture yields an orientation within `1e-6` per component of
`(W=0.999987, X=0.001520, Y=0.001696, Z=0.004570)`, and a second update, with the
second sample, yields an orientation within `1e-6` per component of
`(W=0.999860, X=0.004705, Y=0.003105, Z=0.015774)`. -/
theorem golden_vectors :
    let m0 : Madgwick Float32 := NewMadgwick (Scalar.lit (3.14159265358979 * (5 / 180)))
    let m1 := m0.Update
      ⟨Scalar.lit (-0.098402), Scalar.lit 0.113307, Scalar.lit 0.089605⟩
      ⟨Scalar.lit 0.291015, Scalar.lit 0.466064, Scalar.lit 0.919677⟩ 101998848
    let m2 := m1.Update
      ⟨Scalar.lit (-0.072431), Scalar.lit 0.107442, Scalar.lit 0.188146⟩
      ⟨Scalar.lit 0.308105, Scalar.lit 0.470703, Scalar.lit 0.866210⟩ 118718464
    (Float32.near 1e-6 0.999987 m1.Quat.W ∧ Float32.near 1e-6 0.001520 m1.Quat.X ∧
      Float32.near 1e-6 0.001696 m1.Quat.Y ∧ Float32.near 1e-6 0.004570 m1.Quat.Z) ∧
    (Float32.near 1e-6 0.999860 m2.Quat.W ∧ Float32.near 1e-6 0.004705 m2.Quat.X ∧
      Float32.near 1e-6 0.003105 m2.Quat.Y ∧ Float32.near 1e-6 0.015774 m2.Quat.Z) := by
  decide!

end Float32Claims

section FrameClaims

open mgl32 fusion

/-- C11: the gain is immutable after construction.  In every reading of the
scalars, for every filter state, gyro, accel and duration, `Update` leaves the
field `beta` equal to its value before the call, and replaces the orientation by
`Quat.Normalize` of the integrated sum; so does every sequence of calls. -/
theorem update_beta_unchanged :
    ∀ (F : Type) [Scalar F] (m : Madgwick F) (gyro accel : Vec3 F) (timeDelta : Int),
      (m.Update gyro accel timeDelta).beta = m.beta ∧
      m.Update gyro accel timeDelta =
        ⟨(m.integrated gyro accel timeDelta).Normalize, m.beta⟩ ∧
      ∀ samples : List (Vec3 F × Vec3 F × Int), (m.Updates samples).beta = m.beta := by
  intro F _ m gyro accel timeDelta
  refine ⟨rfl, rfl, fun samples => ?_⟩
  induction samples generalizing m with
  | nil => rfl
  | cons s rest ih => exact ih (m.Update s.1 s.2.1 s.2.2)

end FrameClaims

section GravityClaims

open mgl32 fusion

theorem Exact.VecNormalize_lenSq (a : Vec3 ℝ) (ha : a ≠ ⟨0, 0, 0⟩) :
    spec.lenSq (Exact.VecNormalize Real.sqrt a) = 1 := by
  have hs : 0 < a.X * a.X + a.Y * a.Y + a.Z * a.Z := by
    have h0 : 0 ≤ a.X * a.X + a.Y * a.Y + a.Z * a.Z :=
      add_nonneg (add_nonneg (mul_self_nonneg _) (mul_self_nonneg _)) (mul_self_nonneg _)
    rcases h0.lt_or_eq with h | h
    · exact h
    · exfalso
      apply ha
      have hx : a.X = 0 := by nlinarith [mul_self_nonneg a.X, mul_self_nonneg a.Y, mul_self_nonneg a.Z]
      have hy : a.Y = 0 := by nlinarith [mul_self_nonneg a.X, mul_self_nonneg a.Y, mul_self_nonneg a.Z]
      have hz : a.Z = 0 := by nlinarith [mul_self_nonneg a.X, mul_self_nonneg a.Y, mul_self_nonneg a.Z]
      cases a
      simp only at hx hy hz
      rw [hx, hy, hz]
  have hL : 0 < Real.sqrt (a.X * a.X + a.Y * a.Y + a.Z * a.Z) := Real.sqrt_pos.mpr hs
  have hL2 : Real.sqrt (a.X * a.X + a.Y * a.Y + a.Z * a.Z) ^ 2 =
      a.X * a.X + a.Y * a.Y + a.Z * a.Z := Real.sq_sqrt hs.le
  simp only [Exact.VecNormalize, Vec3.Normalize, Vec3.Len, exactScalar, spec.lenSq]
  push_cast
  generalize Real.sqrt (a.X * a.X + a.Y * a.Y + a.Z * a.Z) = L at hL hL2
  field_simp
  nlinarith

theorem Exact.objectiveAt_eq_gravity_sub (q : Quat ℝ) (a : Vec3 ℝ) :
    Exact.objectiveAt Real.sqrt a q.W q.V.X q.V.Y q.V.Z =
      ⟨(spec.gravity q).X - a.X, (spec.gravity q).Y - a.Y, (spec.gravity q).Z - a.Z⟩ := by
  rw [Exact.objectiveAt_eq]
  rfl

/-- C13: the objective function compares against the gravity direction that the
orientation predicts.  For every quaternion `q = (w,x,y,z)` of norm 1, the vector
`p(q) = (2(xz-wy), 2(wx+yz), 2(0.5-x²-y²))` is the vector part of
`conj(q) ⊗ (0,(0,0,1)) ⊗ q`, whose scalar part is zero, and has length 1; for a
non-zero accel the normalized accel has length 1, the objective function `f` of
`Update` is `p(q)` minus the normalized accel, and `f` is zero exactly when the two
unit vectors coincide. -/
theorem objective_is_gravity_difference (q : Quat ℝ) (accel : Vec3 ℝ)
    (hq : spec.normSq q = 1) (ha : accel ≠ ⟨0, 0, 0⟩) :
    spec.hamilton (spec.hamilton (spec.conj q) ⟨0, ⟨0, 0, 1⟩⟩) q = ⟨0, spec.gravity q⟩ ∧
    spec.hamilton (spec.conj q) (spec.hamilton ⟨0, ⟨0, 0, 1⟩⟩ q) = ⟨0, spec.gravity q⟩ ∧
    Real.sqrt (spec.lenSq (spec.gravity q)) = 1 ∧
    Real.sqrt (spec.lenSq (Exact.VecNormalize Real.sqrt accel)) = 1 ∧
    Exact.objectiveAt Real.sqrt (Exact.VecNormalize Real.sqrt accel) q.W q.V.X q.V.Y q.V.Z =
      ⟨(spec.gravity q).X - (Exact.VecNormalize Real.sqrt accel).X,
       (spec.gravity q).Y - (Exact.VecNormalize Real.sqrt accel).Y,
       (spec.gravity q).Z - (Exact.VecNormalize Real.sqrt accel).Z⟩ ∧
    (Exact.objectiveAt Real.sqrt (Exact.VecNormalize Real.sqrt accel) q.W q.V.X q.V.Y q.V.Z =
        ⟨0, 0, 0⟩ ↔ spec.gravity q = Exact.VecNormalize Real.sqrt accel) := by
  have hn : q.W ^ 2 + q.V.X ^ 2 + q.V.Y ^ 2 + q.V.Z ^ 2 = 1 := hq
  have hg : spec.lenSq (spec.gravity q) = 1 := by
    simp only [spec.lenSq, spec.gravity]
    have : (2 * (q.V.X * q.V.Z - q.W * q.V.Y)) ^ 2 + (2 * (q.W * q.V.X + q.V.Y * q.V.Z)) ^ 2 +
        (2 * (1 / 2 - q.V.X ^ 2 - q.V.Y ^ 2)) ^ 2 =
        1 + 4 * (q.V.X ^ 2 + q.V.Y ^ 2) * (q.W ^ 2 + q.V.X ^ 2 + q.V.Y ^ 2 + q.V.Z ^ 2 - 1) := by
      ring
    rw [this, hn]
    ring
  refine ⟨?_, ?_, ?_, ?_, Exact.objectiveAt_eq_gravity_sub q _, ?_⟩
  · apply Quat.ext_components <;>
    · simp only [spec.hamilton, spec.conj, spec.gravity]
      nlinarith [hn]
  · apply Quat.ext_components <;>
    · simp only [spec.hamilton, spec.conj, spec.gravity]
      nlinarith [hn]
  · rw [hg, Real.sqrt_one]
  · rw [Exact.VecNormalize_lenSq accel ha, Real.sqrt_one]
  · rw [Exact.objectiveAt_eq_gravity_sub]
    generalize Exact.VecNormalize Real.sqrt accel = a
    generalize spec.gravity q = p
    cases a; cases p
    simp only [Vec3.mk.injEq]
    constructor
    · rintro ⟨h1, h2, h3⟩
      exact ⟨by linarith, by linarith, by linarith⟩
    · rintro ⟨h1, h2, h3⟩
      exact ⟨by linarith, by linarith, by linarith⟩

/-- Witness of C13 at the quaternion `(1/2, 1/2, 1/2, 1/2)`. -/
theorem objective_is_gravity_difference_witness :
    spec.hamilton (spec.hamilton (spec.conj (⟨1 / 2, ⟨1 / 2, 1 / 2, 1 / 2⟩⟩ : Quat ℝ))
        ⟨0, ⟨0, 0, 1⟩⟩) ⟨1 / 2, ⟨1 / 2, 1 / 2, 1 / 2⟩⟩ =
      ⟨0, spec.gravity ⟨1 / 2, ⟨1 / 2, 1 / 2, 1 / 2⟩⟩⟩ :=
  (objective_is_gravity_difference ⟨1 / 2, ⟨1 / 2, 1 / 2, 1 / 2⟩⟩ ⟨0, 1, 0⟩
    (by simp only [spec.normSq]; norm_num) (by simp)).1

end GravityClaims

section RestLemmas

open mgl32 fusion

end RestLemmas

section RestClaims

open mgl32 fusion

end RestClaims

section CoverLemmas

open mgl32 fusion

theorem spec.normSq_neg (p : Quat ℝ) : spec.normSq (spec.neg p) = spec.normSq p := by
  simp only [spec.normSq, spec.neg]
  ring

theorem Exact.Len_neg (p : Quat ℝ) :
    Exact.Len Real.sqrt (spec.neg p) = Exact.Len Real.sqrt p := by
  rw [Exact.Len_eq, Exact.Len_eq, spec.normSq_neg]

theorem Exact.Len_ne_zero (p : Quat ℝ) (hp : p ≠ ⟨0, ⟨0, 0, 0⟩⟩) :
    Exact.Len Real.sqrt p ≠ 0 := by
  rw [Exact.Len_eq]
  intro h
  have h0 : spec.normSq p = 0 := (Real.sqrt_eq_zero (spec.normSq_nonneg p)).mp h
  apply hp
  simp only [spec.normSq] at h0
  have hw : p.W = 0 := by nlinarith [sq_nonneg p.W, sq_nonneg p.V.X, sq_nonneg p.V.Y, sq_nonneg p.V.Z]
  have hx : p.V.X = 0 := by nlinarith [sq_nonneg p.W, sq_nonneg p.V.X, sq_nonneg p.V.Y, sq_nonneg p.V.Z]
  have hy : p.V.Y = 0 := by nlinarith [sq_nonneg p.W, sq_nonneg p.V.X, sq_nonneg p.V.Y, sq_nonneg p.V.Z]
  have hz : p.V.Z = 0 := by nlinarith [sq_nonneg p.W, sq_nonneg p.V.X, sq_nonneg p.V.Y, sq_nonneg p.V.Z]
  exact Quat.ext_components hw hx hy hz

theorem Exact.Normalize_neg (p : Quat ℝ) (hp : p ≠ ⟨0, ⟨0, 0, 0⟩⟩) :
    Exact.Normalize Real.sqrt (spec.neg p) = spec.neg (Exact.Normalize Real.sqrt p) := by
  have h0 := Exact.Len_ne_zero p hp
  by_cases hf : Exact.FloatEqual Real.sqrt 1 (Exact.Len Real.sqrt p) = true
  · rw [Exact.Normalize_of_floatEqual p hf,
      Exact.Normalize_of_floatEqual (spec.neg p) (by rw [Exact.Len_neg]; exact hf)]
  · have hf' : Exact.FloatEqual Real.sqrt 1 (Exact.Len Real.sqrt p) = false := by simpa using hf
    rw [Exact.Normalize_of_not p hf' h0,
      Exact.Normalize_of_not (spec.neg p) (by rw [Exact.Len_neg]; exact hf')
        (by rw [Exact.Len_neg]; exact h0), Exact.Len_neg]
    apply Quat.ext_components <;>
    · simp only [spec.smul, spec.neg]
      ring

theorem Exact.gradient_neg (q : Quat ℝ) (beta : ℝ) (accel : Vec3 ℝ) :
    Exact.gradient Real.sqrt ⟨spec.neg q, beta⟩ accel =
      spec.neg (Exact.gradient Real.sqrt ⟨q, beta⟩ accel) := by
  rw [Exact.gradient_components, Exact.gradient_components]
  simp only [Exact.objectiveAt_eq]
  apply Quat.ext_components <;>
  · simp only [spec.neg]
    ring

theorem Exact.integrated_neg (q : Quat ℝ) (beta : ℝ) (gyro accel : Vec3 ℝ) (d : Int)
    (hg : Exact.gradient Real.sqrt ⟨q, beta⟩ accel ≠ ⟨0, ⟨0, 0, 0⟩⟩) :
    Exact.integrated Real.sqrt ⟨spec.neg q, beta⟩ gyro accel d =
      spec.neg (Exact.integrated Real.sqrt ⟨q, beta⟩ gyro accel d) := by
  rw [Exact.integrated_eq_spec, Exact.integrated_eq_spec, Exact.gradient_neg,
    Exact.Normalize_neg _ hg]
  apply Quat.ext_components <;>
  · simp only [spec.add, spec.smul, spec.sub, spec.hamilton, spec.neg]
    ring

theorem Exact.Normalize_W_zero (p : Quat ℝ) (hW : p.W = 0) (hp : p ≠ ⟨0, ⟨0, 0, 0⟩⟩) :
    (Exact.Normalize Real.sqrt p).W = 0 := by
  have h0 := Exact.Len_ne_zero p hp
  by_cases hf : Exact.FloatEqual Real.sqrt 1 (Exact.Len Real.sqrt p) = true
  · rw [Exact.Normalize_of_floatEqual p hf, hW]
  · rw [Exact.Normalize_of_not p (by simpa using hf) h0]
    simp only [spec.smul, hW, mul_zero]

theorem Exact.gradient_example :
    Exact.gradient Real.sqrt ⟨⟨1, ⟨0, 0, 0⟩⟩, 1⟩ ⟨1, 0, 0⟩ = ⟨0, ⟨0, 2, 0⟩⟩ := by
  have hn : Exact.VecNormalize Real.sqrt ⟨1, 0, 0⟩ = ⟨1, 0, 0⟩ := by
    simp only [Exact.VecNormalize, Vec3.Normalize, Vec3.Len, exactScalar, Vec3.mk.injEq]
    norm_num
  rw [Exact.gradient_components]
  simp only
  rw [hn, Exact.objectiveAt_eq]
  apply Quat.ext_components <;> norm_num

theorem Exact.integrated_example_W :
    (Exact.integrated Real.sqrt ⟨⟨1, ⟨0, 0, 0⟩⟩, 1⟩ ⟨0, 0, 0⟩ ⟨1, 0, 0⟩ 1000).W = 1 := by
  rw [Exact.integrated_eq_spec, Exact.gradient_example]
  have hz : (Exact.Normalize Real.sqrt (⟨0, ⟨0, 2, 0⟩⟩ : Quat ℝ)).W = 0 :=
    Exact.Normalize_W_zero _ rfl (by
      intro h
      have := congrArg (fun p : Quat ℝ => p.V.Y) h
      norm_num at this)
  simp only [spec.add, spec.smul, spec.sub, spec.hamilton, hz]
  norm_num

end CoverLemmas

section CoverClaims

open mgl32 fusion

/-- C16: double-cover equivariance.  For every orientation `q`, gain, gyro,
non-zero accel and duration such that the gradient at `q` is not the zero
quaternion and the sum `q + rateOfChange * dtSeconds` to normalize is not the zero
quaternion, over exact real arithmetic `Update` started from `-q` yields the
negation of the orientation that `Update` yields from `q`. -/
theorem update_neg (q : Quat ℝ) (beta : ℝ) (gyro accel : Vec3 ℝ) (d : Int)
    (_ha : accel ≠ ⟨0, 0, 0⟩)
    (hg : Exact.gradient Real.sqrt ⟨q, beta⟩ accel ≠ ⟨0, ⟨0, 0, 0⟩⟩)
    (hs : Exact.integrated Real.sqrt ⟨q, beta⟩ gyro accel d ≠ ⟨0, ⟨0, 0, 0⟩⟩) :
    (Exact.Update Real.sqrt ⟨spec.neg q, beta⟩ gyro accel d).Quat =
      spec.neg (Exact.Update Real.sqrt ⟨q, beta⟩ gyro accel d).Quat := by
  rw [Exact.Update_Quat, Exact.Update_Quat, Exact.integrated_neg q beta gyro accel d hg,
    Exact.Normalize_neg _ hs]

/-- Witness of C16 at the identity orientation with accel `(1,0,0)`. -/
theorem update_neg_witness :
    (Exact.Update Real.sqrt ⟨spec.neg ⟨1, ⟨0, 0, 0⟩⟩, 1⟩ ⟨0, 0, 0⟩ ⟨1, 0, 0⟩ 1000).Quat =
      spec.neg (Exact.Update Real.sqrt ⟨⟨1, ⟨0, 0, 0⟩⟩, 1⟩ ⟨0, 0, 0⟩ ⟨1, 0, 0⟩ 1000).Quat :=
  update_neg ⟨1, ⟨0, 0, 0⟩⟩ 1 ⟨0, 0, 0⟩ ⟨1, 0, 0⟩ 1000 (by simp)
    (by
      rw [Exact.gradient_example]
      intro h
      have := congrArg (fun p : Quat ℝ => p.V.Y) h
      norm_num at this)
    (by
      intro h
      have := congrArg Quat.W h
      rw [Exact.integrated_example_W] at this
      norm_num at this)

end CoverClaims

section NaNLemmas

open mgl32 fusion

theorem Float32.nan_add (x : Float32) : (Float32.nan + x : Float32) = Float32.nan := by
  cases x <;> rfl

theorem Float32.add_nan (x : Float32) : (x + Float32.nan : Float32) = Float32.nan := by
  cases x <;> rfl

theorem Float32.nan_sub (x : Float32) : (Float32.nan - x : Float32) = Float32.nan := by
  cases x <;> rfl

theorem Float32.sub_nan (x : Float32) : (x - Float32.nan : Float32) = Float32.nan := by
  cases x <;> rfl

theorem Float32.nan_mul (x : Float32) : (Float32.nan * x : Float32) = Float32.nan := by
  cases x <;> rfl

theorem Float32.mul_nan (x : Float32) : (x * Float32.nan : Float32) = Float32.nan := by
  cases x <;> rfl

theorem Float32.nan_div (x : Float32) : (Float32.nan / x : Float32) = Float32.nan := by
  cases x <;> rfl

theorem Float32.div_nan (x : Float32) : (x / Float32.nan : Float32) = Float32.nan := by
  cases x <;> rfl

theorem Float32.sqrt_nan : Scalar.sqrt Float32.nan = Float32.nan := rfl

theorem Float32.eq_nan (x : Float32) : Scalar.eq x Float32.nan = false := by
  cases x <;> rfl

theorem Float32.nan_eq (x : Float32) : Scalar.eq Float32.nan x = false := by
  cases x <;> rfl

theorem Float32.lt_nan (x : Float32) : Scalar.lt x Float32.nan = false := by
  cases x <;> rfl

theorem Float32.nan_lt (x : Float32) : Scalar.lt Float32.nan x = false := by
  cases x <;> rfl

theorem Float32.eqInfPos_nan : Scalar.eqInfPos Float32.nan = false := rfl

end NaNLemmas

section NaNPropagation

open mgl32 fusion

theorem Float32.Abs_nan : mgl32.Abs Float32.nan = Float32.nan := by
  simp only [mgl32.Abs, Float32.nan_lt, Float32.nan_eq]
  rfl

theorem Float32.FloatEqual_nan (x : Float32) : mgl32.FloatEqual x Float32.nan = false := by
  simp only [mgl32.FloatEqual, mgl32.FloatEqualThreshold, Float32.eq_nan, Float32.sub_nan,
    Float32.Abs_nan, Float32.mul_nan, Float32.nan_eq, Float32.nan_lt, Float32.nan_div,
    Float32.add_nan]
  rfl

theorem Float32.Normalize_of_Len_nan (q : Quat Float32) (h : q.Len = Float32.nan) :
    q.Normalize = ⟨Float32.nan, ⟨Float32.nan, Float32.nan, Float32.nan⟩⟩ := by
  simp only [Quat.Normalize, h, Float32.FloatEqual_nan, Float32.nan_eq, Float32.eqInfPos_nan,
    Float32.div_nan, Float32.mul_nan, Vec3.Mul, Bool.false_eq_true, if_false]

theorem Float32.Len_of_W_nan (q : Quat Float32) (h : q.W = Float32.nan) :
    q.Len = Float32.nan := by
  simp only [Quat.Len, h, Float32.nan_mul, Float32.nan_add, Float32.sqrt_nan]

theorem Float32.roundNE_zero (p emin E bias : Nat) :
    (Float32.roundNE p emin 0 E bias).1 = 0 := by
  unfold Float32.roundNE
  simp only [Nat.zero_mul, Nat.zero_div, Nat.zero_mod]
  split
  · rfl
  · have h : ∀ d : Nat, ¬ ((2 : Nat) ^ d < 0 ∨ (0 = 2 ^ d ∧ 0 % 2 = 1)) := by
      intro d hd
      rcases hd with hd | hd
      · exact Nat.not_lt_zero _ hd
      · exact absurd hd.2 (by decide)
    simp only [h, if_false]
    have hp : (0 : Nat) ≠ 2 ^ p := (Nat.two_pow_pos p).ne
    simp only [hp, if_false]

theorem Float32.ofRounded_zero (s : Bool) (E bias : Nat) :
    Float32.ofRounded s 0 E bias = Float32.finite s 0 0 := by
  unfold Float32.ofRounded
  simp only [Float32.roundNE_zero, if_true]

theorem Float32.zero_mul_zero (s t : Bool) (e1 e2 : Nat) :
    (Float32.finite s 0 e1 * Float32.finite t 0 e2 : Float32) =
      Float32.finite (xor s t) 0 0 := by
  show Float32.mul _ _ = _
  simp only [Float32.mul, Nat.zero_mul, Float32.ofRounded_zero]

theorem Float32.zero_add_zero (s t : Bool) :
    ∃ u, (Float32.finite s 0 0 + Float32.finite t 0 0 : Float32) = Float32.finite u 0 0 := by
  show ∃ u, Float32.add _ _ = _
  by_cases h : s = t
  · exact ⟨s, by simp only [Float32.add, h, if_true, Nat.zero_mul, Nat.add_zero,
      Float32.ofRounded_zero]⟩
  · exact ⟨false, by simp only [Float32.add, h, if_false, if_true]⟩

theorem Float32.sqrt_zero (s : Bool) :
    Scalar.sqrt (Float32.finite s 0 0) = Float32.finite s 0 0 := by
  show Float32.sqrt _ = _
  simp only [Float32.sqrt, if_true]

set_option exponentiation.threshold 2048 in
theorem Float32.lit_one : (Scalar.lit 1 : Float32) = Float32.finite false 8388608 126 := by
  show Float32.lit 1 = _
  decide!

theorem Float32.one_div_zero (s : Bool) :
    (Scalar.lit 1 / Float32.finite s 0 0 : Float32) = Float32.inf s := by
  rw [Float32.lit_one]
  show Float32.div _ _ = _
  simp only [Float32.div, if_true, Bool.false_xor]
  rfl

theorem Float32.zero_mul_inf (s t : Bool) (e : Nat) :
    (Float32.finite s 0 e * Float32.inf t : Float32) = Float32.nan := by
  show Float32.mul _ _ = _
  simp only [Float32.mul, if_true]

/-- Go `Vec3.Normalize` of a vector of three zeros, of either sign, in `float32`:
the length is `+0`, its reciprocal is `+Inf`, and `0 * Inf` is a NaN. -/
theorem Float32.Normalize_zero_vec (s1 s2 s3 : Bool) (e1 e2 e3 : Nat) :
    Vec3.Normalize (⟨Float32.finite s1 0 e1, Float32.finite s2 0 e2, Float32.finite s3 0 e3⟩ :
      Vec3 Float32) = ⟨Float32.nan, Float32.nan, Float32.nan⟩ := by
  obtain ⟨u, hu⟩ := Float32.zero_add_zero (xor s1 s1) (xor s2 s2)
  obtain ⟨v, hv⟩ := Float32.zero_add_zero u (xor s3 s3)
  simp only [Vec3.Normalize, Vec3.Len, Float32.zero_mul_zero, hu, hv, Float32.sqrt_zero,
    Float32.one_div_zero, Float32.zero_mul_inf]

end NaNPropagation

section NaNUpdate

open mgl32 fusion

/-- The gradient that `Update` computes from an accel vector of three zeros has
four NaN components, whatever the orientation. -/
theorem Float32.gradient_zero_accel (m : Madgwick Float32) (s1 s2 s3 : Bool) (e1 e2 e3 : Nat) :
    m.gradient ⟨Float32.finite s1 0 e1, Float32.finite s2 0 e2, Float32.finite s3 0 e3⟩ =
      ⟨Float32.nan, ⟨Float32.nan, Float32.nan, Float32.nan⟩⟩ := by
  simp only [Madgwick.gradient, Float32.Normalize_zero_vec, Madgwick.objective,
    Madgwick.jacobian, Mat4x3FromCols, Mat4x3.Mul3x1, vec4ToQuat, Float32.sub_nan,
    Float32.mul_nan, Float32.add_nan]

/-- Go `Quat.Normalize` of four NaN components returns four NaN components. -/
theorem Float32.Normalize_nan :
    (⟨Float32.nan, ⟨Float32.nan, Float32.nan, Float32.nan⟩⟩ : Quat Float32).Normalize =
      ⟨Float32.nan, ⟨Float32.nan, Float32.nan, Float32.nan⟩⟩ :=
  Float32.Normalize_of_Len_nan _ (Float32.Len_of_W_nan _ rfl)

/-- With an accel vector of three zeros the orientation after `Update` has four
NaN components. -/
theorem Float32.Update_zero_accel (m : Madgwick Float32) (gyro : Vec3 Float32)
    (s1 s2 s3 : Bool) (e1 e2 e3 : Nat) (d : Int) :
    (m.Update gyro ⟨Float32.finite s1 0 e1, Float32.finite s2 0 e2, Float32.finite s3 0 e3⟩
      d).Quat = ⟨Float32.nan, ⟨Float32.nan, Float32.nan, Float32.nan⟩⟩ := by
  simp only [Madgwick.Update, Madgwick.integrated, Madgwick.rateOfChange,
    Float32.gradient_zero_accel, Float32.Normalize_nan, Quat.Scale, Quat.Sub, Vec3.Sub,
    Quat.Add, Vec3.Add, Float32.nan_mul, Float32.sub_nan, Float32.add_nan]

/-- From an orientation of four NaN components `Update` returns four NaN
components, whatever the gain and the sample. -/
theorem Float32.Update_of_nan (beta : Float32) (gyro accel : Vec3 Float32) (d : Int) :
    (Madgwick.Update ⟨⟨Float32.nan, ⟨Float32.nan, Float32.nan, Float32.nan⟩⟩, beta⟩ gyro accel
      d).Quat = ⟨Float32.nan, ⟨Float32.nan, Float32.nan, Float32.nan⟩⟩ := by
  simp only [Madgwick.Update, Madgwick.integrated, Quat.Scale, Quat.Add, Vec3.Add,
    Float32.nan_add]
  exact Float32.Normalize_nan

/-- From an orientation of four NaN components every sequence of calls of
`Update` ends with four NaN components. -/
theorem Float32.Updates_of_nan (samples : List (Vec3 Float32 × Vec3 Float32 × Int))
    (m : Madgwick Float32)
    (h : m.Quat = ⟨Float32.nan, ⟨Float32.nan, Float32.nan, Float32.nan⟩⟩) :
    (m.Updates samples).Quat = ⟨Float32.nan, ⟨Float32.nan, Float32.nan, Float32.nan⟩⟩ := by
  induction samples generalizing m with
  | nil => exact h
  | cons s rest ih =>
    apply ih
    obtain ⟨q, beta⟩ := m
    subst h
    exact Float32.Update_of_nan beta s.1 s.2.1 s.2.2

end NaNUpdate

section NaNClaims

open mgl32 fusion

/-- C14. In the `float32` reading, `Update` with an accel vector of three zeros
(of either sign) leaves all four components of the orientation NaN, for every filter
state, gyro vector and duration (`beta = 0` and `timeDelta = 0` included); from an
orientation of four NaN components every `Update`, whatever its gain and its
sample, returns four NaN components again; so after the call with the zero accel
vector every sequence of later calls of `Update` ends with four NaN components. -/
theorem update_zero_accel_nan :
    (∀ (m : Madgwick Float32) (gyro : Vec3 Float32) (s1 s2 s3 : Bool) (e1 e2 e3 : Nat)
        (d : Int),
      (m.Update gyro ⟨Float32.finite s1 0 e1, Float32.finite s2 0 e2, Float32.finite s3 0 e3⟩
        d).Quat = ⟨Float32.nan, ⟨Float32.nan, Float32.nan, Float32.nan⟩⟩) ∧
    (∀ (beta : Float32) (gyro accel : Vec3 Float32) (d : Int),
      (Madgwick.Update ⟨⟨Float32.nan, ⟨Float32.nan, Float32.nan, Float32.nan⟩⟩, beta⟩ gyro
        accel d).Quat = ⟨Float32.nan, ⟨Float32.nan, Float32.nan, Float32.nan⟩⟩) ∧
    (∀ (m : Madgwick Float32) (gyro : Vec3 Float32) (s1 s2 s3 : Bool) (e1 e2 e3 : Nat)
        (d : Int) (samples : List (Vec3 Float32 × Vec3 Float32 × Int)),
      ((m.Update gyro
        ⟨Float32.finite s1 0 e1, Float32.finite s2 0 e2, Float32.finite s3 0 e3⟩ d).Updates
          samples).Quat = ⟨Float32.nan, ⟨Float32.nan, Float32.nan, Float32.nan⟩⟩) ∧
    ((fusion.NewMadgwick (Scalar.lit 0) : Madgwick Float32).Update
        ⟨Scalar.lit 0, Scalar.lit 0, Scalar.lit 0⟩ ⟨Scalar.lit 0, Scalar.lit 0, Scalar.lit 0⟩
        0).Quat = ⟨Float32.nan, ⟨Float32.nan, Float32.nan, Float32.nan⟩⟩ :=
  ⟨Float32.Update_zero_accel, Float32.Update_of_nan,
    fun m gyro s1 s2 s3 e1 e2 e3 d samples =>
      Float32.Updates_of_nan samples _ (Float32.Update_zero_accel m gyro s1 s2 s3 e1 e2 e3 d),
    by
      have h : (Scalar.lit 0 : Float32) = Float32.finite false 0 0 := by
        show Float32.lit 0 = _
        decide!
      rw [h]
      exact Float32.Update_zero_accel _ _ false false false 0 0 0 0⟩

end NaNClaims
